import Mathlib

/-!
Verification of the napari-micromanager MDA write path
(`src/napari_micromanager/_mda_handler.py`) against its natural-language
specification.

The Python module is shallowly embedded below: each Python function of the
handler becomes a Lean function over explicit data, Python dictionaries become
association lists, in-place mutation becomes explicit state passing, and a
Python statement that can raise becomes a computation in `Except PyErr`.
-/

namespace NapariMM

/-- Kinds of Python exceptions that the embedded code can raise. -/
inductive PyErr where
  | keyError
  | valueError
  | indexError
  | typeError
  | runtimeError
  | nameError
  | attributeError
  | notADirectoryError
deriving DecidableEq, Repr

/-- `d[k]`-style lookup: `some` returns the value, `none` raises. -/
def orRaise {α : Type} (o : Option α) (e : PyErr) : Except PyErr α :=
  match o with
  | some a => .ok a
  | none => .error e

/-! ### Decimal formatting, embedding Python's `f"{i:03d}"` -/

/-- The character for one decimal digit (`0 ≤ d ≤ 9`). -/
def digitChar : Nat → Char
  | 0 => '0' | 1 => '1' | 2 => '2' | 3 => '3' | 4 => '4'
  | 5 => '5' | 6 => '6' | 7 => '7' | 8 => '8' | 9 => '9'
  | _ => '*'

/-- Base-10 digits, least significant first, with explicit fuel so that the
definition is structural (kernel-reducible); `fuel ≥ n` is always enough. -/
def natDigits : Nat → Nat → List Nat
  | 0, _ => []
  | _ + 1, 0 => []
  | fuel + 1, n + 1 => (n + 1) % 10 :: natDigits fuel ((n + 1) / 10)

/-- Decimal digit characters of `n`, most significant first (empty for 0). -/
def natChars (n : Nat) : List Char :=
  ((natDigits n n).map digitChar).reverse

/-- Reads a digit string back as a number (left fold, most significant
first); the left inverse used to prove `fmt003` injective. -/
def decodeChars (l : List Char) : Nat :=
  l.foldl (fun a c => a * 10 + (c.toNat - 48)) 0

/-- Python `f"{n:03d}"`: decimal representation of `n` left-padded with `'0'`
to at least three characters. -/
def fmt003 (n : Nat) : String :=
  ⟨List.replicate (3 - (natChars n).length) '0' ++ natChars n⟩

/-! ### Data model

`useq.MDASequence` (the Sequence Model) is an external pydantic object; only
the attributes the handler reads are embedded: `uid`, `used_axes`, `sizes`,
`stage_positions` (each with `name` and optional nested sub-sequence),
`channels`, and the `napari_mm_sequence_meta` entry of `metadata`.
Dictionaries keep their Python insertion order as association lists. -/

/-- One configured channel (`useq` channel: only `.config` is read). -/
structure Channel where
  config : String
deriving DecidableEq, Repr

/-- Modelled from the spec: `SequenceMeta` lives in `_mda_meta.py`, which is
not among the provided sources.  Per §3 (SplitPolicy) and §6 (configuration
surface: a "should persist" flag and a target name) it is plain data carrying
the channel-splitting flag and the save configuration; the handler reads
`split_channels`, `should_save`, `file_name` and `mode`. -/
structure SeqMeta where
  mode : String
  split_channels : Bool
  should_save : Bool
  file_name : String
deriving DecidableEq, Repr

/-- A stage position's nested sub-sequence (`p.sequence`): the handler reads
its `used_axes`, its `sizes`, whether its `grid_plan` is `NoGrid`, and writes
into its `metadata` dict (modelled as the optional value stored under the
`napari_mm_sequence_meta` key). -/
structure SubSeq where
  usedAxes : List String
  sizes : List (String × Nat)
  gridNoGrid : Bool
  meta : Option SeqMeta
deriving DecidableEq, Repr

/-- One stage position: optional `name`, optional nested sub-sequence. -/
structure Position where
  name : Option String
  sequence : Option SubSeq
deriving DecidableEq, Repr

/-- The embedded `useq.MDASequence`.  `meta` is the value stored under the
`napari_mm_sequence_meta` key of `sequence.metadata` (`none` when absent). -/
structure MDASequence where
  uid : String
  usedAxes : List String
  sizes : List (String × Nat)
  stage_positions : List Position
  channels : List Channel
  meta : Option SeqMeta
deriving DecidableEq, Repr

/-- The embedded `useq.MDAEvent`: the attributes read by the handler.
`index` is the event's axis→coordinate dict, `pos_name` its stage-position
name, `sequence` the plan it was generated from. -/
structure MDAEvent where
  sequence : MDASequence
  index : List (String × Nat)
  channel : Option Channel
  pos_name : Option String
deriving DecidableEq, Repr

/-- Python `sequence.sizes[k] or 1` (`useq` sizes are total over its axes, so
a missing key is read as its `0` default before `or 1` applies). -/
def sizeOr1 (sizes : List (String × Nat)) (k : String) : Nat :=
  let v := (List.lookup k sizes).getD 0
  if v = 0 then 1 else v

/-- Python `p.name or f"Pos{idx:03d}"` (an empty string is falsy). -/
def posName (p : Position) (idx : Nat) : String :=
  match p.name with
  | some n => if n = "" then "Pos" ++ fmt003 idx else n
  | none => "Pos" ++ fmt003 idx

/-! ### `_get_axis_labels` -/

/-- The first stage position carrying a nested sub-sequence, if any
(the `for p in sequence.stage_positions: if p.sequence:` scan). -/
def firstSubSeq : List Position → Option SubSeq
  | [] => none
  | p :: ps =>
    match p.sequence with
    | some sub => some sub
    | none => firstSubSeq ps

/-- `_get_axis_labels(sequence)`: axis labels plus the flag telling whether
some position carries a nested sub-plan (labels are then taken from the
first such position's sub-plan). -/
def get_axis_labels (s : MDASequence) : List String × Bool :=
  if s.stage_positions = [] then (s.usedAxes, false)
  else
    match firstSubSeq s.stage_positions with
    | some sub => (sub.usedAxes, true)
    | none => (s.usedAxes, false)

/-! ### `_determine_sequence_layers` -/

/-- One entry of the returned `_layer_info` list:
`(id, layer_shape, layer_meta)` where the only metadata key ever set is
`"ch_id"`. -/
structure LayerSpec where
  id : String
  shape : List Nat
  chId : Option String
deriving DecidableEq, Repr

/-- Python `channel_id = f"{ch.config}_{i:03d}"`. -/
def chanId (ch : Channel) (i : Nat) : String :=
  ch.config ++ "_" ++ fmt003 i

/-- The `for i, ch in enumerate(sequence.channels)` loop body shared by both
split-channel branches: one layer per channel, id `pre ++ "_" ++ channel_id`. -/
def chanEntries (pre : String) (shape : List Nat) : Nat → List Channel → List LayerSpec
  | _, [] => []
  | i, ch :: rest =>
    ⟨pre ++ "_" ++ chanId ch i, shape, some (chanId ch i)⟩ :: chanEntries pre shape (i + 1) rest

/-- Layers appended for one stage position (after its shape is fixed). -/
def mkPosEntries (meta : SeqMeta) (s : MDASequence) (p : Position) (idx : Nat)
    (shape : List Nat) : List LayerSpec :=
  if meta.split_channels then
    chanEntries (posName p idx ++ "_" ++ s.uid) shape 0 s.channels
  else
    [⟨posName p idx ++ "_" ++ s.uid, shape, none⟩]

/-- The `for idx, p in enumerate(sequence.stage_positions)` loop of
`_determine_sequence_layers`.  Besides the accumulated `_layer_info` entries it
returns the positions as left behind by the loop: the loop *mutates* each
grid-carrying sub-plan, storing the parent's meta in its metadata dict
(`p.sequence.metadata["napari_mm_sequence_meta"] = meta`).  A position whose
sub-plan's grid plan is `NoGrid` is skipped (`continue`) before that mutation.
`labels`/`base` are the (already channel-popped, when splitting) axis labels
and shared shape. -/
def posLoop (meta : SeqMeta) (s : MDASequence) (labels : List String)
    (base : List Nat) : Nat → List Position → Except PyErr (List LayerSpec × List Position)
  | _, [] => .ok ([], [])
  | idx, p :: ps =>
    match p.sequence with
    | none =>
      (posLoop meta s labels base (idx + 1) ps).map fun r =>
        (mkPosEntries meta s p idx base ++ r.1, p :: r.2)
    | some sub =>
      if sub.gridNoGrid then
        (posLoop meta s labels base (idx + 1) ps).map fun r => (r.1, p :: r.2)
      else
        match List.findIdx? (fun a => a == "g") labels with
        | none => .error .valueError
        | some gi =>
          let g := (List.lookup "g" sub.sizes).getD 0
          let shape := base.set gi g
          let p' : Position := { p with sequence := some { sub with meta := some meta } }
          (posLoop meta s labels base (idx + 1) ps).map fun r =>
            (mkPosEntries meta s p idx shape ++ r.1, p' :: r.2)

/-- `_determine_sequence_layers(sequence)`.  Returns the final axis labels
(with `"y", "x"` appended), the `_layer_info` entries, and the sequence as the
call leaves it (its per-position sub-plan metadata may have been written to).
Raises `KeyError` when the `napari_mm_sequence_meta` key is absent and
`ValueError` when `axis_labels.index("c")`/`"g"` fails. -/
def determine_sequence_layers (s : MDASequence) :
    Except PyErr (List String × List LayerSpec × MDASequence) :=
  match s.meta with
  | none => .error .keyError
  | some meta =>
    let labelsPos := get_axis_labels s
    let labels0 := labelsPos.1
    let shape0 := labels0.map (sizeOr1 s.sizes)
    if labelsPos.2 then
      if meta.split_channels then
        match List.findIdx? (fun a => a == "c") labels0 with
        | none => .error .valueError
        | some ci =>
          (posLoop meta s (labels0.eraseIdx ci) (shape0.eraseIdx ci) 0 s.stage_positions).map
            fun r => (labels0.eraseIdx ci ++ ["y", "x"], r.1,
              { s with stage_positions := r.2 })
      else
        (posLoop meta s labels0 shape0 0 s.stage_positions).map
          fun r => (labels0 ++ ["y", "x"], r.1, { s with stage_positions := r.2 })
    else
      if meta.split_channels then
        match List.findIdx? (fun a => a == "c") labels0 with
        | none => .error .valueError
        | some ci =>
          .ok (labels0.eraseIdx ci ++ ["y", "x"],
            chanEntries s.uid (shape0.eraseIdx ci) 0 s.channels, s)
      else
        .ok (labels0 ++ ["y", "x"], [⟨s.uid, shape0, none⟩], s)

/-! ### `_id_idx_layer` -/

/-- The `if meta.split_channels and event.channel:` step of `_id_idx_layer`:
computes the channel suffix and removes `"c"` from the axis order
(`axis_order.remove("c")` raises `ValueError` when `"c"` is absent;
`event.index['c']` raises `KeyError` when absent). -/
def chanSuffix (meta : SeqMeta) (ev : MDAEvent) (order0 : List String) :
    Except PyErr (String × List String) :=
  if meta.split_channels && ev.channel.isSome then
    match ev.channel with
    | none => .error .attributeError
    | some ch =>
      match List.lookup "c" ev.index with
      | none => .error .keyError
      | some c =>
        if order0.contains "c" then
          .ok ("_" ++ ch.config ++ "_" ++ fmt003 c, order0.erase "c")
        else .error .valueError
  else .ok ("", order0)

/-- Python `event.pos_name or f"Pos{event.index['p']:03d}"` (an absent or
empty `pos_name` falls back on the `'p'` index, whose lookup can raise). -/
def eventPosName (ev : MDAEvent) : Except PyErr String :=
  match ev.pos_name with
  | some n =>
    if n = "" then
      (orRaise (List.lookup "p" ev.index) .keyError).map fun pi => "Pos" ++ fmt003 pi
    else .ok n
  | none =>
    (orRaise (List.lookup "p" ev.index) .keyError).map fun pi => "Pos" ++ fmt003 pi

/-- The position step of `_id_idx_layer`: extends the layer-name prefix and
builds the array id, using the position name when some position carries a
sub-sequence. -/
def posPrefixId (posSeq : Bool) (pfx0 : String) (ev : MDAEvent) (sfx : String) :
    Except PyErr (String × String) :=
  if posSeq then
    (eventPosName ev).map fun name =>
      (pfx0 ++ "_" ++ name, name ++ "_" ++ ev.sequence.uid ++ sfx)
  else .ok (pfx0, ev.sequence.uid ++ sfx)

/-- `_id_idx_layer(event)`: the `(id, im_idx, layer_name)` triple for one
event.  A label missing from the event's index contributes coordinate `0`
(the `except KeyError: im_idx += (0,)` handler). -/
def id_idx_layer (ev : MDAEvent) : Except PyErr (String × List Nat × String) :=
  match ev.sequence.meta with
  | none => .error .attributeError
  | some meta =>
    let orderPos := get_axis_labels ev.sequence
    let pfx0 := if meta.should_save then meta.file_name else "Exp"
    match chanSuffix meta ev orderPos.1 with
    | .error e => .error e
    | .ok (sfx, order) =>
      match posPrefixId orderPos.2 pfx0 ev sfx with
      | .error e => .error e
      | .ok (pfx, id) =>
        let imIdx := order.map fun k => (List.lookup k ev.index).getD 0
        .ok (id, imIdx, pfx ++ "_" ++ ev.sequence.uid ++ sfx)

/-! ### Derived notions used to state the claims -/

/-- The per-axis size the allocator grants the group of stage position `p`:
the position's own grid size for axis `"g"` when it carries a sub-plan,
otherwise the parent plan's (`or 1`-defaulted) size. -/
def effSize (s : MDASequence) (p : Position) (k : String) : Nat :=
  match p.sequence with
  | some sub => if k = "g" then (List.lookup "g" sub.sizes).getD 0 else sizeOr1 s.sizes k
  | none => sizeOr1 s.sizes k

/-- The in-place effect `_determine_sequence_layers` has on one stage
position: a grid-carrying (non-`NoGrid`) sub-plan gets the parent's meta
written into its metadata dict; everything else is untouched. -/
def mutOne (meta : SeqMeta) (p : Position) : Position :=
  match p.sequence with
  | some sub =>
    if sub.gridNoGrid then p
    else { p with sequence := some { sub with meta := some meta } }
  | none => p

/-- The total in-place effect allocation has on the sequence object. -/
def allocMutate (meta : SeqMeta) (s : MDASequence) : MDASequence :=
  { s with stage_positions := s.stage_positions.map (mutOne meta) }

/-- Strict lexicographic order on coordinate vectors (the "later" order of
the spec's WriteCursor). -/
def lexLt : List Nat → List Nat → Bool
  | [], [] => false
  | [], _ :: _ => true
  | _ :: _, [] => false
  | a :: as, b :: bs => if a < b then true else if b < a then false else lexLt as bs

/-- No character of the string is an underscore (separator-freeness, used to
reason about the `_`-joined layer ids). -/
def usFree (t : String) : Prop :=
  ∀ c ∈ t.data, c ≠ '_'

/-! ### Handler state

`_NapariMDAHandler` holds `_tmp_arrays` (id → (zarr array, temp directory)),
its signal `_connections`, and the napari viewer.  The zarr array and its
temporary directory are modelled by a `ZarrEntry` recording the array's shape
and dtype, whether the store is open, whether the temporary directory still
exists on disk, and the multiset of coordinates written so far. -/

/-- One `_tmp_arrays` value: the zarr array plus its `TemporaryDirectory`. -/
structure ZarrEntry where
  shape : List Nat
  dtype : String
  storeOpen : Bool
  dirPresent : Bool
  written : List (List Nat)
deriving DecidableEq, Repr

/-- One napari layer, with the pieces of `layer.metadata` the handler touches
(`uid`, `ch_id`, `positions` — stage x/y/z floats are not modelled, only the
image index recorded with them). -/
structure Layer where
  name : String
  uidMeta : Option String
  chId : Option String
  visible : Bool
  positions : List (List Nat)
deriving DecidableEq, Repr

/-- The napari viewer surface the handler touches. -/
structure Viewer where
  layers : List Layer
  currentStep : List Nat
  axisLabels : List String
deriving DecidableEq, Repr

/-- The `_NapariMDAHandler` state: `_tmp_arrays` as an insertion-ordered
association list, the connected-flags of `_connections`, the viewer, and the
acquisition engine's pause flag (toggled by `mda.toggle_pause()`). -/
structure HandlerState where
  tmp : List (String × ZarrEntry)
  connected : List Bool
  viewer : Viewer
  paused : Bool
deriving DecidableEq, Repr

/-- Python dict assignment `d[k] = v`: replace in place, or append. -/
def assocSet {β : Type} : List (String × β) → String → β → List (String × β)
  | [], k, v => [(k, v)]
  | (k', v') :: rest, k, v =>
    if k' = k then (k, v) :: rest else (k', v') :: assocSet rest k v

/-! ### `_on_mda_started` -/

/-- Observable actions of `_on_mda_started`, in program order: engine
pause-toggles, backing-store creations, and the axis-label assignment. -/
inductive StartAction where
  | toggle
  | createStore (id : String)
  | setAxisLabels
deriving DecidableEq, Repr

/-- The fresh zarr array (plus temporary directory) made for one layer:
`zarr.open(tmp.name, shape=shape + yx_shape, dtype=f"uint{bitdepth}")`. -/
def mkEntry (dtype : String) (yx : List Nat) (spec : LayerSpec) : ZarrEntry :=
  { shape := spec.shape ++ yx, dtype := dtype, storeOpen := true,
    dirPresent := true, written := [] }

/-- The napari image layer `_create_empty_image_layer` adds for one spec:
named `f"{fname}_{id_}"`, invisible, carrying the sequence uid and the
optional `ch_id` in its metadata. -/
def mkLayer (fname uid : String) (spec : LayerSpec) : Layer :=
  { name := fname ++ "_" ++ spec.id, uidMeta := some uid, chId := spec.chId,
    visible := false, positions := [] }

/-- The `for id_, shape, kwargs in layers_to_create` loop: create a temporary
directory and zarr array per layer, add an (invisible) image layer carrying
the sequence uid, and record both in `_tmp_arrays`.  When
`getPixelSizeUm() == 0`, `_create_empty_image_layer` reads its local `scale`
before assignment and raises (`UnboundLocalError`); the numeric scale value
itself is not modelled, no claim refers to it. -/
def startLoop (fname uid dtype : String) (yx : List Nat) (pixSize : Nat) :
    List LayerSpec → HandlerState → Except PyErr (HandlerState × List StartAction)
  | [], st => .ok (st, [])
  | spec :: rest, st =>
    if pixSize = 0 then .error .nameError
    else
      let st' : HandlerState :=
        { st with tmp := assocSet st.tmp spec.id (mkEntry dtype yx spec),
                  viewer := { st.viewer with
                    layers := st.viewer.layers ++ [mkLayer fname uid spec] } }
      (startLoop fname uid dtype yx pixSize rest st').map fun r =>
        (r.1, .createStore spec.id :: r.2)

/-- `_on_mda_started(sequence)`.  A sequence without the
`napari_mm_sequence_meta` metadata is ignored.  Otherwise the engine is
pause-toggled, layers are determined and created (shapes get
`[getImageHeight(), getImageWidth()]` appended), `viewer.dims.axis_labels` is
set, and the engine is pause-toggled a second time only if some viewer layer's
`metadata["uid"]` equals the sequence's uid. -/
def on_mda_started (st : HandlerState) (s : MDASequence)
    (imgH imgW bitDepth pixSize : Nat) :
    Except PyErr (HandlerState × List StartAction) :=
  match s.meta with
  | none => .ok (st, [])
  | some meta =>
    let st1 : HandlerState := { st with paused := !st.paused }
    match determine_sequence_layers s with
    | .error e => .error e
    | .ok (labels, specs, _) =>
      let fname := if meta.should_save then meta.file_name else "Exp"
      (startLoop fname s.uid ("uint" ++ toString bitDepth) [imgH, imgW] pixSize specs st1).map
        fun r =>
          let st2 := r.1
          let st3 : HandlerState :=
            { st2 with viewer := { st2.viewer with axisLabels := labels } }
          if st3.viewer.layers.any fun l => decide (l.uidMeta = some s.uid) then
            ({ st3 with paused := !st3.paused },
              .toggle :: r.2 ++ [.setAxisLabels, .toggle])
          else (st3, .toggle :: r.2 ++ [.setAxisLabels])

/-! ### `_on_mda_frame` -/

/-- `z[im_idx] = image` on a zarr array: raises `IndexError` when there are
more indices than array dimensions or a coordinate is out of range; the image
must match the selection's trailing two dimensions (plain zarr/numpy
broadcasting of size-one axes is not modelled; every run here writes
full camera frames).  A successful write records the coordinate. -/
def zarrSet (e : ZarrEntry) (idx : List Nat) (imgH imgW : Nat) :
    Except PyErr ZarrEntry :=
  let r := e.shape.length
  if idx.length + 2 > r then .error .indexError
  else if (idx.zip e.shape).all fun q => decide (q.1 < q.2) then
    if imgH = e.shape.getD (r - 2) 0 ∧ imgW = e.shape.getD (r - 1) 0 then
      .ok { e with written := e.written ++ [idx] }
    else .error .valueError
  else .error .indexError

/-- Find the layer called `nm` and apply `f` to it; `none` when no layer has
that name (`viewer.layers[name]` raises `KeyError`). -/
def layerUpdate (ls : List Layer) (nm : String) (f : Layer → Layer) :
    Option (List Layer) :=
  match ls with
  | [] => none
  | l :: rest =>
    if l.name = nm then some (f l :: rest)
    else (layerUpdate rest nm f).map fun r => l :: r

/-- `_on_mda_frame(image, event)`.  Unmanaged events (no
`napari_mm_sequence_meta`) return immediately.  Otherwise: resolve
`(id, im_idx, layer_name)`, write into `_tmp_arrays[_id][0]` (a `KeyError`
when the id has no backing store), overwrite the leading `len(im_idx)`
entries of `viewer.dims.current_step`, append the position record to the
layer's metadata, and make the layer visible.  Any exception propagates:
there is no handler in `_on_mda_frame`. -/
def on_mda_frame (st : HandlerState) (imgH imgW : Nat) (ev : MDAEvent) :
    Except PyErr HandlerState :=
  match ev.sequence.meta with
  | none => .ok st
  | some _ =>
    match id_idx_layer ev with
    | .error e => .error e
    | .ok (id, idx, lname) =>
      match List.lookup id st.tmp with
      | none => .error .keyError
      | some entry =>
        match zarrSet entry idx imgH imgW with
        | .error e => .error e
        | .ok entry' =>
          let st1 : HandlerState := { st with tmp := assocSet st.tmp id entry' }
          if idx.length ≤ st1.viewer.currentStep.length then
            let cs := idx ++ st1.viewer.currentStep.drop idx.length
            let st2 : HandlerState :=
              { st1 with viewer := { st1.viewer with currentStep := cs } }
            match layerUpdate st2.viewer.layers lname
                (fun l => { l with positions := l.positions ++ [idx], visible := true }) with
            | none => .error .keyError
            | some ls' =>
              .ok { st2 with viewer := { st2.viewer with layers := ls' } }
          else .error .indexError

/-! ### `_cleanup` -/

/-- `signal.disconnect(slot)`: disconnecting an already-disconnected slot
raises (Qt raises `TypeError`/`RuntimeError`). -/
def pyDisconnect (connected : Bool) : Except PyErr Bool :=
  if connected then .ok false else .error .runtimeError

/-- `contextlib.suppress(kinds)` around a computation: a listed error is
swallowed, leaving `dflt` (the state the failed statement left behind). -/
def suppress {α : Type} (kinds : List PyErr) (x : Except PyErr α) (dflt : α) :
    Except PyErr α :=
  match x with
  | .ok a => .ok a
  | .error e => if e ∈ kinds then .ok dflt else .error e

/-- `TemporaryDirectory.cleanup()`: CPython's `_rmtree` ignores
`FileNotFoundError` internally (Python ≥ 3.8), so cleaning an
already-removed directory is a no-op rather than an error. -/
def tmpdirCleanup (_dirPresent : Bool) : Except PyErr Bool :=
  .ok false

/-- The `for signal, slot in self._connections` loop of `_cleanup`, each
disconnect wrapped in `suppress(TypeError, RuntimeError)`. -/
def cleanupConns : List Bool → Except PyErr (List Bool)
  | [] => .ok []
  | c :: rest =>
    match suppress [.typeError, .runtimeError] (pyDisconnect c) c with
    | .error e => .error e
    | .ok c' =>
      (cleanupConns rest).map fun r => c' :: r

/-- The `for z, v in self._tmp_arrays.values()` loop of `_cleanup`:
`z.store.close()` then `v.cleanup()` under `suppress(NotADirectoryError)`.
Also returns the ids whose temporary directory this call actually removed. -/
def cleanupTmp : List (String × ZarrEntry) →
    Except PyErr (List (String × ZarrEntry) × List String)
  | [] => .ok ([], [])
  | (id, e) :: rest =>
    let e1 : ZarrEntry := { e with storeOpen := false }
    match suppress [.notADirectoryError] (tmpdirCleanup e1.dirPresent) e1.dirPresent with
    | .error err => .error err
    | .ok d =>
      (cleanupTmp rest).map fun r =>
        ((id, { e1 with dirPresent := d }) :: r.1,
          (if e.dirPresent then [id] else []) ++ r.2)

/-- `_NapariMDAHandler._cleanup()`: disconnect every signal, close every zarr
store, remove every temporary directory.  Returns the new state and the list
of directories this call freed. -/
def cleanup (st : HandlerState) : Except PyErr (HandlerState × List String) :=
  match cleanupConns st.connected with
  | .error e => .error e
  | .ok conns =>
    match cleanupTmp st.tmp with
    | .error e => .error e
    | .ok (tmp', freed) =>
      .ok ({ st with connected := conns, tmp := tmp' }, freed)

/-! ### Defaults and statement helpers -/

/-- Default `Position` used with `List.getD`. -/
def defPos : Position := ⟨none, none⟩

/-- Default `LayerSpec` used with `List.getD`. -/
def defSpec : LayerSpec := ⟨"", [], none⟩

/-- The stage position an event belongs to: the `pi`-th position when the
plan is in per-position (sub-sequence) mode, a bare default otherwise (then
`effSize` degenerates to the plan's own sizes). -/
def evPos (s : MDASequence) (pf : Bool) (pi : Nat) : Position :=
  if pf then s.stage_positions.getD pi defPos else defPos

/-- `Except.ok`-ness as a boolean (used to state closed counterexamples). -/
def exIsOk {ε α : Type} : Except ε α → Bool
  | .ok _ => true
  | .error _ => false

/-! ### Concrete fixtures

Small closed plans, events and handler states used to witness the theorems
below and to exhibit counterexamples; each mirrors a configuration the GUI
can produce (cf. `tests/test_multid_widget.py`). -/

/-- A plain (`mode="mda"`, no splitting, no saving) `SequenceMeta`. -/
def cMeta : SeqMeta := ⟨"mda", false, false, ""⟩

/-- Same with `split_channels=True`. -/
def cMetaS : SeqMeta := ⟨"mda", true, false, ""⟩

/-- A freshly constructed handler: three live signal connections, no arrays,
an empty viewer, engine running. -/
def cState0 : HandlerState := ⟨[], [true, true, true], ⟨[], [], []⟩, false⟩

/-- `t=4, c=2, z=1` plan, no positions, no splitting (the §8 scenario). -/
def cSeq6 : MDASequence :=
  ⟨"U", ["t", "c", "z"], [("t", 4), ("c", 2), ("z", 1), ("p", 0), ("g", 0)], [],
    [⟨"DAPI"⟩, ⟨"FITC"⟩], some cMeta⟩

/-- The eight `(t, c)` events of `cSeq6` in acquisition order. -/
def cEvents6 : List MDAEvent :=
  [⟨cSeq6, [("t", 0), ("c", 0), ("z", 0)], some ⟨"DAPI"⟩, none⟩,
   ⟨cSeq6, [("t", 0), ("c", 1), ("z", 0)], some ⟨"FITC"⟩, none⟩,
   ⟨cSeq6, [("t", 1), ("c", 0), ("z", 0)], some ⟨"DAPI"⟩, none⟩,
   ⟨cSeq6, [("t", 1), ("c", 1), ("z", 0)], some ⟨"FITC"⟩, none⟩,
   ⟨cSeq6, [("t", 2), ("c", 0), ("z", 0)], some ⟨"DAPI"⟩, none⟩,
   ⟨cSeq6, [("t", 2), ("c", 1), ("z", 0)], some ⟨"FITC"⟩, none⟩,
   ⟨cSeq6, [("t", 3), ("c", 0), ("z", 0)], some ⟨"DAPI"⟩, none⟩,
   ⟨cSeq6, [("t", 3), ("c", 1), ("z", 0)], some ⟨"FITC"⟩, none⟩]

/-- `cSeq6` with channel splitting switched on. -/
def cSeqS : MDASequence := { cSeq6 with meta := some cMetaS }

/-- A position sub-plan whose grid plan is `NoGrid`. -/
def cSubNG : SubSeq := ⟨["g"], [("g", 2)], true, none⟩

/-- Two stage positions; position `"A"` carries a `NoGrid` sub-plan and is
skipped by allocation, position `"B"` is plain. -/
def cSeqNG : MDASequence :=
  ⟨"U", ["t", "c", "z"], [("t", 2), ("c", 1), ("p", 2)],
    [⟨some "A", some cSubNG⟩, ⟨some "B", none⟩], [⟨"DAPI"⟩], some cMeta⟩

/-- An event the engine would deliver for the skipped position `"A"`. -/
def cEvNG : MDAEvent := ⟨cSeqNG, [("p", 0), ("g", 0)], some ⟨"DAPI"⟩, some "A"⟩

/-- A plan whose only position carries a `NoGrid` sub-plan: allocation
succeeds but creates no layer at all. -/
def cSeqNG2 : MDASequence := { cSeqNG with stage_positions := [⟨some "A", some cSubNG⟩] }

/-- The handler state `_on_mda_started` leaves behind for `cSeqNG`. -/
def cStateAfterNG : HandlerState :=
  match on_mda_started cState0 cSeqNG 512 512 16 1 with
  | .ok r => r.1
  | .error _ => cState0

/-- A grid-carrying (non-`NoGrid`) position sub-plan with no meta yet. -/
def cSubMut : SubSeq := ⟨["g", "t"], [("g", 2)], false, none⟩

/-- A plan with one grid-sub-plan position (exercises the allocation-time
metadata write into the nested sub-plan). -/
def cSeqMut : MDASequence :=
  ⟨"U", ["t"], [("t", 3), ("g", 0), ("p", 1)], [⟨some "A", some cSubMut⟩],
    [⟨"DAPI"⟩], some cMeta⟩

/-- `t=2, c=2` plan, no positions, no splitting. -/
def cSeqC5 : MDASequence :=
  ⟨"U", ["t", "c"], [("t", 2), ("c", 2)], [], [⟨"DAPI"⟩, ⟨"FITC"⟩], some cMeta⟩

/-- A mid-run handler state for `cSeqC5` whose display cursor sits at
`t=1` (frame `(1,0)` was shown last). -/
def cStC5 : HandlerState :=
  ⟨[("U", ⟨[2, 2, 512, 512], "uint16", true, true, []⟩)], [true, true, true],
    ⟨[⟨"Exp_U", some "U", none, false, []⟩], [1, 0, 0, 0], ["t", "c", "y", "x"]⟩, false⟩

/-- The `(t=0, c=0)` event of `cSeqC5`. -/
def cEvC5 : MDAEvent := ⟨cSeqC5, [("t", 0), ("c", 0)], some ⟨"DAPI"⟩, none⟩

/-- The state `_on_mda_frame` leaves after delivering `cEvC5` to `cStC5`:
cursor rewound to `[0,0,0,0]`, the frame recorded, the layer visible. -/
def cStC5after : HandlerState :=
  ⟨[("U", ⟨[2, 2, 512, 512], "uint16", true, true, [[0, 0]]⟩)], [true, true, true],
    ⟨[⟨"Exp_U", some "U", none, true, [[0, 0]]⟩], [0, 0, 0, 0],
      ["t", "c", "y", "x"]⟩, false⟩

/-- An event whose sequence carries no handler metadata (unmanaged). -/
def cEvUnmanaged : MDAEvent := ⟨{ cSeqC5 with meta := none }, [], none, none⟩

/-- An event whose `t` coordinate exceeds the allocated `t` size of `cStC5`. -/
def cEvOOB : MDAEvent := ⟨cSeqC5, [("t", 7), ("c", 0)], some ⟨"DAPI"⟩, none⟩

/-- Grid sub-plans (2 and 3 tiles) for the two positions of `cSeqW1`. -/
def cSubA : SubSeq := ⟨["t", "c", "g"], [("g", 2)], false, none⟩

/-- See `cSubA`. -/
def cSubB : SubSeq := ⟨["t", "c", "g"], [("g", 3)], false, none⟩

/-- Split-channel plan with two grid-carrying positions of different grid
sizes (the per-position override case). -/
def cSeqW1 : MDASequence :=
  ⟨"U", ["t", "c", "p", "g"], [("t", 2), ("c", 2), ("p", 2), ("g", 0)],
    [⟨some "A", some cSubA⟩, ⟨some "B", some cSubB⟩],
    [⟨"DAPI"⟩, ⟨"FITC"⟩], some cMetaS⟩

/-- The `(p=1, t=1, c=1, g=2)` event of `cSeqW1`, carrying the sequence
object as allocation leaves it. -/
def cEvW1 : MDAEvent :=
  ⟨allocMutate cMetaS cSeqW1, [("p", 1), ("t", 1), ("c", 1), ("g", 2)],
    some ⟨"FITC"⟩, some "B"⟩

/-- Axis labels allocated for `cSeqW1` (before the `y,x` append they are the
first sub-plan's axes with `"c"` popped). -/
def cLW1 : List String := ["t", "g", "y", "x"]

/-- The four split-channel layer specs allocated for `cSeqW1`: per position,
per channel, with the position's own grid size in the `"g"` slot. -/
def cEW1 : List LayerSpec :=
  [⟨"A_U_DAPI_000", [2, 2], some "DAPI_000"⟩,
   ⟨"A_U_FITC_001", [2, 2], some "FITC_001"⟩,
   ⟨"B_U_DAPI_000", [2, 3], some "DAPI_000"⟩,
   ⟨"B_U_FITC_001", [2, 3], some "FITC_001"⟩]

/-- What `_on_mda_started` produces for `cSeq6` on a 512×512, 16-bit camera. -/
def cStarted6 : HandlerState × List StartAction :=
  match on_mda_started cState0 cSeq6 512 512 16 1 with
  | .ok r => r
  | .error _ => (cState0, [])

/-- Axis labels allocated for `cSeq6`. -/
def cL6 : List String := ["t", "c", "z", "y", "x"]

/-- The single layer spec allocated for `cSeq6`. -/
def cE6 : List LayerSpec := [⟨"U", [4, 2, 1], none⟩]

/-- Axis labels allocated for `cSeqMut`. -/
def cL8 : List String := ["g", "t", "y", "x"]

/-- The single layer spec allocated for `cSeqMut`. -/
def cE8 : List LayerSpec := [⟨"A_U", [2, 3], none⟩]

/-- `cSeqMut` as allocation leaves it: the parent meta has been written into
the nested sub-plan's metadata. -/
def cT8 : MDASequence :=
  { cSeqMut with
    stage_positions := [⟨some "A", some { cSubMut with meta := some cMeta }⟩] }

/-- The coordinates the Index Resolver assigns to the eight `cSeq6` events
(`[]` would mark a resolution failure). -/
def cCoords6 : List (List Nat) :=
  cEvents6.map fun e =>
    match id_idx_layer e with
    | .ok t => t.2.1
    | .error _ => []

/-- The handler state after `_on_mda_started` for `cSeq6` and delivery of
all eight frames.  (napari resizes `viewer.dims` when the 5-D layer is
added, so the run starts with a five-entry current step.) -/
def cRun6 : HandlerState :=
  cEvents6.foldl
    (fun st e =>
      match on_mda_frame st 512 512 e with
      | .ok st' => st'
      | .error _ => st)
    { cStarted6.1 with
      viewer := { cStarted6.1.viewer with currentStep := [0, 0, 0, 0, 0] } }

/-! ## Lemmas

### Decimal formatting -/

theorem natDigits_eq (fuel n : Nat) (h : n ≤ fuel) :
    natDigits fuel n = Nat.digits 10 n := by
  induction fuel generalizing n with
  | zero => interval_cases n; simp [natDigits]
  | succ f ih =>
    match n with
    | 0 => simp [natDigits]
    | m + 1 =>
      rw [natDigits, Nat.digits_def' (by norm_num : (1:ℕ) < 10) (Nat.succ_pos m)]
      congr 1
      refine ih _ ?_
      have : (m + 1) / 10 < m + 1 := Nat.div_lt_self (Nat.succ_pos m) (by norm_num)
      omega

theorem digitChar_toNat {d : Nat} (h : d < 10) : (digitChar d).toNat = 48 + d := by
  interval_cases d <;> rfl

theorem foldr_digits (l : List Nat) (h : ∀ d ∈ l, d < 10) :
    (l.map digitChar).foldr (fun c a => a * 10 + (c.toNat - 48)) 0 = Nat.ofDigits 10 l := by
  induction l with
  | nil => simp [Nat.ofDigits]
  | cons d t ih =>
    simp only [List.map_cons, List.foldr_cons, Nat.ofDigits_cons]
    rw [ih fun x hx => h x (List.mem_cons_of_mem _ hx),
      digitChar_toNat (h d (List.mem_cons_self _ _))]
    have : (Nat.ofDigits 10 t : ℕ) = Nat.ofDigits 10 t := rfl
    omega

theorem decode_natChars (n : Nat) : decodeChars (natChars n) = n := by
  unfold decodeChars natChars
  rw [natDigits_eq n n le_rfl, List.foldl_reverse,
    foldr_digits _ fun d hd => Nat.digits_lt_base (by norm_num) hd,
    Nat.ofDigits_digits]

theorem foldl_zeros (k : Nat) :
    List.foldl (fun a c => a * 10 + (c.toNat - 48)) 0 (List.replicate k '0') = 0 := by
  induction k with
  | zero => rfl
  | succ k ih => rw [List.replicate_succ, List.foldl_cons]; simpa using ih

theorem decode_fmt003 (n : Nat) : decodeChars (fmt003 n).data = n := by
  show decodeChars (List.replicate (3 - (natChars n).length) '0' ++ natChars n) = n
  unfold decodeChars
  rw [List.foldl_append, foldl_zeros]
  exact decode_natChars n

theorem fmt003_inj : Function.Injective fmt003 := by
  intro a b h
  have : decodeChars (fmt003 a).data = decodeChars (fmt003 b).data := by rw [h]
  rwa [decode_fmt003, decode_fmt003] at this

theorem digitChar_ne_us {d : Nat} (h : d < 10) : digitChar d ≠ '_' := by
  interval_cases d <;> decide

theorem fmt003_usFree (n : Nat) : usFree (fmt003 n) := by
  intro c hc
  have hc' : c ∈ List.replicate (3 - (natChars n).length) '0' ++ natChars n := hc
  rcases List.mem_append.1 hc' with h | h
  · rw [List.eq_of_mem_replicate h]; decide
  · unfold natChars at h
    rw [List.mem_reverse] at h
    obtain ⟨d, hd, rfl⟩ := List.mem_map.1 h
    rw [natDigits_eq n n le_rfl] at hd
    exact digitChar_ne_us (Nat.digits_lt_base (by norm_num) hd)

/-! ### Splitting `_`-joined identifiers -/

theorem sep_split {a b t1 t2 : List Char} (ha : ∀ c ∈ a, c ≠ '_')
    (hb : ∀ c ∈ b, c ≠ '_') (h : a ++ '_' :: t1 = b ++ '_' :: t2) :
    a = b ∧ t1 = t2 := by
  induction a generalizing b with
  | nil =>
    cases b with
    | nil => simpa using h
    | cons y ys =>
      simp only [List.nil_append, List.cons_append, List.cons.injEq] at h
      exact absurd h.1.symm (hb y (List.mem_cons_self _ _))
  | cons x xs ih =>
    cases b with
    | nil =>
      simp only [List.cons_append, List.nil_append, List.cons.injEq] at h
      exact absurd h.1 (ha x (List.mem_cons_self _ _))
    | cons y ys =>
      simp only [List.cons_append, List.cons.injEq] at h
      obtain ⟨rfl, h2⟩ := h
      have hr := ih (fun c hc => ha c (List.mem_cons_of_mem _ hc))
        (fun c hc => hb c (List.mem_cons_of_mem _ hc)) h2
      exact ⟨by rw [hr.1], hr.2⟩

theorem data_us_append (P F : String) :
    (P ++ "_" ++ F).data = P.data ++ '_' :: F.data := by
  simp [String.data_append]

/-- Cancel the rightmost `"_"`-separated, underscore-free component. -/
theorem append_us_right_inj {P Q F G : String} (hF : usFree F) (hG : usFree G)
    (h : P ++ "_" ++ F = Q ++ "_" ++ G) : P = Q ∧ F = G := by
  have hd : P.data ++ '_' :: F.data = Q.data ++ '_' :: G.data := by
    have := congrArg String.data h
    rwa [data_us_append, data_us_append] at this
  have hrev : F.data.reverse ++ '_' :: P.data.reverse =
      G.data.reverse ++ '_' :: Q.data.reverse := by
    have := congrArg List.reverse hd
    simpa [List.reverse_append] using this
  have hs := sep_split (fun c hc => hF c (List.mem_reverse.1 hc))
    (fun c hc => hG c (List.mem_reverse.1 hc)) hrev
  exact ⟨String.ext (List.reverse_injective hs.2),
    String.ext (List.reverse_injective hs.1)⟩

/-- Cancel the leftmost `"_"`-separated, underscore-free component. -/
theorem append_us_left_inj {P Q T U : String} (hP : usFree P) (hQ : usFree Q)
    (h : P ++ "_" ++ T = Q ++ "_" ++ U) : P = Q ∧ T = U := by
  have hd : P.data ++ '_' :: T.data = Q.data ++ '_' :: U.data := by
    have := congrArg String.data h
    rwa [data_us_append, data_us_append] at this
  have hs := sep_split hP hQ hd
  exact ⟨String.ext hs.1, String.ext hs.2⟩

/-- Two ids ending in `"_" ++ fmt003 _` agree componentwise. -/
theorem us_fmt003_inj {P Q : String} {i j : Nat}
    (h : P ++ "_" ++ fmt003 i = Q ++ "_" ++ fmt003 j) : P = Q ∧ i = j := by
  have hr := append_us_right_inj (fmt003_usFree i) (fmt003_usFree j) h
  exact ⟨hr.1, fmt003_inj hr.2⟩

/-! ### `chanEntries` characterization -/

theorem exceptMap_ok {α β ε : Type} {f : α → β} {x : Except ε α} {b : β}
    (h : x.map f = .ok b) : ∃ a, x = .ok a ∧ f a = b := by
  cases x with
  | error e => simp [Except.map] at h
  | ok a => exact ⟨a, rfl, by simpa [Except.map] using h⟩

theorem chanEntries_length (pre : String) (shape : List Nat) :
    ∀ (i : Nat) (chs : List Channel),
      (chanEntries pre shape i chs).length = chs.length := by
  intro i chs
  induction chs generalizing i with
  | nil => rfl
  | cons ch rest ih => simp [chanEntries, ih]

theorem chanEntries_getD (pre : String) (shape : List Nat) :
    ∀ (i : Nat) (chs : List Channel) (j : Nat), j < chs.length →
      (chanEntries pre shape i chs).getD j ⟨"", [], none⟩ =
        ⟨pre ++ "_" ++ chanId (chs.getD j ⟨""⟩) (i + j), shape,
          some (chanId (chs.getD j ⟨""⟩) (i + j))⟩ := by
  intro i chs
  induction chs generalizing i with
  | nil => intro j hj; simp at hj
  | cons ch rest ih =>
    intro j hj
    cases j with
    | zero => simp [chanEntries]
    | succ j =>
      have hj' : j < rest.length := by simpa using hj
      simp only [chanEntries, List.getD_cons_succ]
      rw [ih (i + 1) j hj']
      have harith : i + 1 + j = i + (j + 1) := by omega
      rw [harith]

theorem chanEntries_id_lb (pre : String) (shape : List Nat) :
    ∀ (i : Nat) (chs : List Channel) (e : LayerSpec), e ∈ chanEntries pre shape i chs →
      ∃ cfg j, i ≤ j ∧ e.shape = shape ∧
        e.id = (pre ++ "_" ++ cfg) ++ "_" ++ fmt003 j := by
  intro i chs
  induction chs generalizing i with
  | nil => intro e he; simp [chanEntries] at he
  | cons ch rest ih =>
    intro e he
    rcases List.mem_cons.1 he with rfl | hmem
    · refine ⟨ch.config, i, le_rfl, rfl, ?_⟩
      show pre ++ "_" ++ (ch.config ++ "_" ++ fmt003 i) = _
      simp [String.append_assoc]
    · obtain ⟨cfg, j, hj, hsh, hid⟩ := ih (i + 1) e hmem
      exact ⟨cfg, j, by omega, hsh, hid⟩

theorem chanEntries_ids_nodup (pre : String) (shape : List Nat) :
    ∀ (i : Nat) (chs : List Channel),
      ((chanEntries pre shape i chs).map LayerSpec.id).Nodup := by
  intro i chs
  induction chs generalizing i with
  | nil => simp [chanEntries]
  | cons ch rest ih =>
    simp only [chanEntries, List.map_cons, List.nodup_cons]
    refine ⟨?_, ih (i + 1)⟩
    intro hmem
    obtain ⟨e, he, heq⟩ := List.mem_map.1 hmem
    obtain ⟨cfg, j, hj, _, hid⟩ := chanEntries_id_lb pre shape (i + 1) rest e he
    rw [hid] at heq
    have hnorm : (pre ++ "_" ++ cfg) ++ "_" ++ fmt003 j =
        (pre ++ "_" ++ ch.config) ++ "_" ++ fmt003 i := by
      rw [heq]
      simp [chanId, String.append_assoc]
    have := (us_fmt003_inj hnorm).2
    omega

/-! ### `posLoop` characterization -/

theorem posLoop_qs (meta : SeqMeta) (s : MDASequence) (labels : List String)
    (base : List Nat) :
    ∀ (i : Nat) (ps : List Position) (es : List LayerSpec) (qs : List Position),
      posLoop meta s labels base i ps = .ok (es, qs) →
      qs = ps.map (mutOne meta) := by
  intro i ps
  induction ps generalizing i with
  | nil =>
    intro es qs h
    simp only [posLoop] at h
    cases h
    rfl
  | cons p rest ih =>
    intro es qs h
    cases hp : p.sequence with
    | none =>
      simp only [posLoop, hp] at h
      obtain ⟨r, hrec, hf⟩ := exceptMap_ok h
      cases hf
      simp [List.map_cons, mutOne, hp, ih (i + 1) r.1 r.2 hrec]
    | some sub =>
      cases hng : sub.gridNoGrid with
      | true =>
        simp only [posLoop, hp, hng, if_pos rfl] at h
        obtain ⟨r, hrec, hf⟩ := exceptMap_ok h
        cases hf
        simp [List.map_cons, mutOne, hp, hng, ih (i + 1) r.1 r.2 hrec]
      | false =>
        simp only [posLoop, hp, hng, Bool.false_eq_true, if_false] at h
        cases hgi : List.findIdx? (fun a => a == "g") labels with
        | none => rw [hgi] at h; cases h
        | some gi =>
          rw [hgi] at h
          obtain ⟨r, hrec, hf⟩ := exceptMap_ok h
          cases hf
          simp [List.map_cons, mutOne, hp, hng, ih (i + 1) r.1 r.2 hrec]

theorem mkPosEntries_id (meta : SeqMeta) (s : MDASequence) (p : Position)
    (idx : Nat) (shape : List Nat) :
    ∀ e ∈ mkPosEntries meta s p idx shape,
      e.shape = shape ∧ ∃ rest, e.id = posName p idx ++ "_" ++ rest := by
  intro e he
  unfold mkPosEntries at he
  split at he
  · obtain ⟨cfg, j, _, hsh, hid⟩ := chanEntries_id_lb _ _ 0 _ e he
    refine ⟨hsh, s.uid ++ "_" ++ cfg ++ "_" ++ fmt003 j, ?_⟩
    rw [hid]
    simp [String.append_assoc]
  · simp only [List.mem_singleton] at he
    subst he
    exact ⟨rfl, s.uid, rfl⟩

theorem posLoop_entry (meta : SeqMeta) (s : MDASequence) (labels : List String)
    (base : List Nat) :
    ∀ (i : Nat) (ps : List Position) (es : List LayerSpec) (qs : List Position),
      posLoop meta s labels base i ps = .ok (es, qs) →
      ∀ (j : Nat), j < ps.length →
        ((ps.getD j defPos).sequence = none →
          ∀ e ∈ mkPosEntries meta s (ps.getD j defPos) (i + j) base, e ∈ es) ∧
        (∀ sub, (ps.getD j defPos).sequence = some sub → sub.gridNoGrid = false →
          ∃ gi, List.findIdx? (fun a => a == "g") labels = some gi ∧
            ∀ e ∈ mkPosEntries meta s (ps.getD j defPos) (i + j)
                (base.set gi ((List.lookup "g" sub.sizes).getD 0)), e ∈ es) := by
  intro i ps
  induction ps generalizing i with
  | nil => intro es qs h j hj; simp at hj
  | cons p rest ih =>
    intro es qs h j hj
    cases hp : p.sequence with
    | none =>
      simp only [posLoop, hp] at h
      obtain ⟨r, hrec, hf⟩ := exceptMap_ok h
      cases hf
      cases j with
      | zero =>
        constructor
        · intro _ e he
          simp only [List.getD_cons_zero, Nat.add_zero] at he
          exact List.mem_append_left _ he
        · intro sub hsub _
          rw [List.getD_cons_zero, hp] at hsub
          exact Option.noConfusion hsub
      | succ j =>
        have hj' : j < rest.length := by simpa using hj
        have harith : i + (j + 1) = i + 1 + j := by omega
        have hr := ih (i + 1) r.1 r.2 hrec j hj'
        simp only [List.getD_cons_succ, harith]
        exact ⟨fun hn e he => List.mem_append_right _ (hr.1 hn e he),
          fun sub hsub hng => by
            obtain ⟨gi, hgi, hmem⟩ := hr.2 sub hsub hng
            exact ⟨gi, hgi, fun e he => List.mem_append_right _ (hmem e he)⟩⟩
    | some sub =>
      cases hng : sub.gridNoGrid with
      | true =>
        simp only [posLoop, hp, hng, if_pos rfl] at h
        obtain ⟨r, hrec, hf⟩ := exceptMap_ok h
        cases hf
        cases j with
        | zero =>
          constructor
          · intro hn
            rw [List.getD_cons_zero, hp] at hn
            exact Option.noConfusion hn
          · intro sub' hsub' hng'
            rw [List.getD_cons_zero, hp] at hsub'
            have : sub = sub' := Option.some.inj hsub'
            subst this
            rw [hng] at hng'
            exact Bool.noConfusion hng'
        | succ j =>
          have hj' : j < rest.length := by simpa using hj
          have harith : i + (j + 1) = i + 1 + j := by omega
          have hr := ih (i + 1) r.1 r.2 hrec j hj'
          simp only [List.getD_cons_succ, harith]
          exact hr
      | false =>
        simp only [posLoop, hp, hng, Bool.false_eq_true, if_false] at h
        cases hgi : List.findIdx? (fun a => a == "g") labels with
        | none => rw [hgi] at h; cases h
        | some gi =>
          rw [hgi] at h
          obtain ⟨r, hrec, hf⟩ := exceptMap_ok h
          cases hf
          cases j with
          | zero =>
            constructor
            · intro hn
              rw [List.getD_cons_zero, hp] at hn
              exact Option.noConfusion hn
            · intro sub' hsub' _
              rw [List.getD_cons_zero, hp] at hsub'
              have hss : sub = sub' := Option.some.inj hsub'
              subst hss
              refine ⟨gi, rfl, ?_⟩
              intro e he
              simp only [List.getD_cons_zero, Nat.add_zero] at he
              exact List.mem_append_left _ he
          | succ j =>
            have hj' : j < rest.length := by simpa using hj
            have harith : i + (j + 1) = i + 1 + j := by omega
            have hr := ih (i + 1) r.1 r.2 hrec j hj'
            simp only [List.getD_cons_succ, harith]
            exact ⟨fun hn e he => List.mem_append_right _ (hr.1 hn e he),
              fun sub' hsub' hng' => by
                obtain ⟨gi', hgi', hmem⟩ := hr.2 sub' hsub' hng'
                exact ⟨gi', by rw [← hgi]; exact hgi',
                  fun e he => List.mem_append_right _ (hmem e he)⟩⟩

theorem posLoop_ids (meta : SeqMeta) (s : MDASequence) (labels : List String)
    (base : List Nat) :
    ∀ (i : Nat) (ps : List Position) (es : List LayerSpec) (qs : List Position),
      posLoop meta s labels base i ps = .ok (es, qs) →
      ∀ e ∈ es, ∃ j, j < ps.length ∧
        ((ps.getD j defPos).sequence = none ∨
          ∃ sub, (ps.getD j defPos).sequence = some sub ∧ sub.gridNoGrid = false) ∧
        ∃ rest, e.id = posName (ps.getD j defPos) (i + j) ++ "_" ++ rest := by
  intro i ps
  induction ps generalizing i with
  | nil =>
    intro es qs h e he
    simp only [posLoop] at h
    cases h
    simp at he
  | cons p rest ih =>
    intro es qs h e he
    cases hp : p.sequence with
    | none =>
      simp only [posLoop, hp] at h
      obtain ⟨r, hrec, hf⟩ := exceptMap_ok h
      cases hf
      rcases List.mem_append.1 he with hl | hr
      · obtain ⟨_, rest', hid⟩ := mkPosEntries_id meta s p i base e hl
        exact ⟨0, by simp, Or.inl (by simpa [List.getD_cons_zero] using hp),
          rest', by simpa [List.getD_cons_zero, Nat.add_zero] using hid⟩
      · obtain ⟨j, hj, hkeep, rest', hid⟩ := ih (i + 1) r.1 r.2 hrec e hr
        exact ⟨j + 1, by simpa using Nat.succ_lt_succ hj,
          by simpa [List.getD_cons_succ] using hkeep,
          rest', by
            rw [List.getD_cons_succ]
            have harith : i + (j + 1) = i + 1 + j := by omega
            rw [harith]
            exact hid⟩
    | some sub =>
      cases hng : sub.gridNoGrid with
      | true =>
        simp only [posLoop, hp, hng, if_pos rfl] at h
        obtain ⟨r, hrec, hf⟩ := exceptMap_ok h
        cases hf
        obtain ⟨j, hj, hkeep, rest', hid⟩ := ih (i + 1) r.1 r.2 hrec e he
        exact ⟨j + 1, by simpa using Nat.succ_lt_succ hj,
          by simpa [List.getD_cons_succ] using hkeep,
          rest', by
            rw [List.getD_cons_succ]
            have harith : i + (j + 1) = i + 1 + j := by omega
            rw [harith]
            exact hid⟩
      | false =>
        simp only [posLoop, hp, hng, Bool.false_eq_true, if_false] at h
        cases hgi : List.findIdx? (fun a => a == "g") labels with
        | none => rw [hgi] at h; cases h
        | some gi =>
          rw [hgi] at h
          obtain ⟨r, hrec, hf⟩ := exceptMap_ok h
          cases hf
          rcases List.mem_append.1 he with hl | hr
          · obtain ⟨_, rest', hid⟩ := mkPosEntries_id meta s p i _ e hl
            exact ⟨0, by simp, Or.inr ⟨sub, by simpa [List.getD_cons_zero] using hp, hng⟩,
              rest', by simpa [List.getD_cons_zero, Nat.add_zero] using hid⟩
          · obtain ⟨j, hj, hkeep, rest', hid⟩ := ih (i + 1) r.1 r.2 hrec e hr
            exact ⟨j + 1, by simpa using Nat.succ_lt_succ hj,
              by simpa [List.getD_cons_succ] using hkeep,
              rest', by
                rw [List.getD_cons_succ]
                have harith : i + (j + 1) = i + 1 + j := by omega
                rw [harith]
                exact hid⟩

/-! ### Association-list updates -/

theorem assocSet_lookup_self {β : Type} (m : List (String × β)) (k : String) (v : β) :
    List.lookup k (assocSet m k v) = some v := by
  induction m with
  | nil => simp [assocSet, List.lookup_cons]
  | cons q rest ih =>
    obtain ⟨k', v'⟩ := q
    by_cases h : k' = k
    · subst h
      simp [assocSet, List.lookup_cons]
    · have hbeq : (k == k') = false := by
        simp only [beq_eq_false_iff_ne, ne_eq]
        exact fun hh => h hh.symm
      simp [assocSet, h, List.lookup_cons, hbeq, ih]

theorem assocSet_lookup_other {β : Type} (m : List (String × β)) {k k' : String}
    (v : β) (hne : k ≠ k') : List.lookup k (assocSet m k' v) = List.lookup k m := by
  induction m with
  | nil =>
    have hbeq : (k == k') = false := by simpa [beq_eq_false_iff_ne] using hne
    simp [assocSet, List.lookup_cons, hbeq]
  | cons q rest ih =>
    obtain ⟨k1, v1⟩ := q
    by_cases h : k1 = k'
    · subst h
      have hbeq : (k == k1) = false := by simpa [beq_eq_false_iff_ne] using hne
      simp [assocSet, List.lookup_cons, hbeq]
    · simp [assocSet, h, List.lookup_cons, ih]

/-! ### `_get_axis_labels` helpers -/

theorem firstSubSeq_none {ps : List Position} (h : ∀ p ∈ ps, p.sequence = none) :
    firstSubSeq ps = none := by
  induction ps with
  | nil => rfl
  | cons p rest ih =>
    have hp := h p (List.mem_cons_self _ _)
    simp [firstSubSeq, hp, ih fun q hq => h q (List.mem_cons_of_mem _ hq)]

theorem firstSubSeq_eq_none_imp {ps : List Position} (h : firstSubSeq ps = none) :
    ∀ p ∈ ps, p.sequence = none := by
  induction ps with
  | nil => intro p hp; simp at hp
  | cons p rest ih =>
    intro q hq
    cases hp : p.sequence with
    | some sub => rw [firstSubSeq, hp] at h; exact Option.noConfusion h
    | none =>
      rw [firstSubSeq, hp] at h
      rcases List.mem_cons.1 hq with rfl | hq'
      · exact hp
      · exact ih h q hq'

theorem firstSubSeq_isSome {ps : List Position} {i : Nat} (hi : i < ps.length)
    (hne : (ps.getD i defPos).sequence ≠ none) :
    ∃ sub, firstSubSeq ps = some sub := by
  induction ps generalizing i with
  | nil => simp at hi
  | cons p rest ih =>
    cases hp : p.sequence with
    | some sub => exact ⟨sub, by simp [firstSubSeq, hp]⟩
    | none =>
      cases i with
      | zero => rw [List.getD_cons_zero] at hne; exact absurd hp hne
      | succ j =>
        rw [List.getD_cons_succ] at hne
        obtain ⟨sub, hsub⟩ := ih (by simpa using hi) hne
        exact ⟨sub, by simp [firstSubSeq, hp, hsub]⟩

theorem get_axis_labels_noSub {s : MDASequence}
    (h : ∀ p ∈ s.stage_positions, p.sequence = none) :
    get_axis_labels s = (s.usedAxes, false) := by
  unfold get_axis_labels
  by_cases hsp : s.stage_positions = []
  · rw [if_pos hsp]
  · rw [if_neg hsp, firstSubSeq_none h]

theorem get_axis_labels_sub {s : MDASequence} {sub : SubSeq}
    (hf : firstSubSeq s.stage_positions = some sub) :
    get_axis_labels s = (sub.usedAxes, true) := by
  have hsp : s.stage_positions ≠ [] := by
    intro h
    rw [h] at hf
    exact Option.noConfusion hf
  unfold get_axis_labels
  rw [if_neg hsp, hf]

/-! ### Indexing helpers -/

theorem eraseIdx_map {α β : Type} (f : α → β) :
    ∀ (l : List α) (i : Nat), (l.map f).eraseIdx i = (l.eraseIdx i).map f := by
  intro l
  induction l with
  | nil => intro i; simp
  | cons x xs ih =>
    intro i
    cases i with
    | zero => simp
    | succ j => simp [List.eraseIdx_cons_succ, ih]

theorem findIdx?_found {α : Type} (p : α → Bool) (d : α) :
    ∀ (l : List α) (i j : Nat), List.findIdx? p l i = some j →
      i ≤ j ∧ j - i < l.length ∧ p (l.getD (j - i) d) = true := by
  intro l
  induction l with
  | nil => intro i j h; simp [List.findIdx?] at h
  | cons x xs ih =>
    intro i j h
    rw [List.findIdx?_cons] at h
    by_cases hx : p x = true
    · rw [if_pos hx] at h
      have hij : i = j := Option.some.inj h
      subst hij
      simpa [Nat.sub_self] using hx
    · rw [if_neg hx] at h
      obtain ⟨h1, h2, h3⟩ := ih (i + 1) j h
      have hstep : j - i = (j - (i + 1)) + 1 := by omega
      refine ⟨by omega, by simp; omega, ?_⟩
      rw [hstep, List.getD_cons_succ]
      exact h3

theorem findIdx?_found0 {α : Type} (p : α → Bool) (d : α) {l : List α} {j : Nat}
    (h : List.findIdx? p l = some j) : j < l.length ∧ p (l.getD j d) = true := by
  obtain ⟨_, h2, h3⟩ := findIdx?_found p d l 0 j h
  rw [Nat.sub_zero] at h2 h3
  exact ⟨h2, h3⟩

theorem erase_eq_eraseIdx (a : String) :
    ∀ (l : List String) (i0 i : Nat),
      List.findIdx? (fun x => x == a) l i0 = some i →
      l.erase a = l.eraseIdx (i - i0) := by
  intro l
  induction l with
  | nil => intro i0 i h; simp [List.findIdx?] at h
  | cons x xs ih =>
    intro i0 i h
    rw [List.findIdx?_cons] at h
    by_cases hx : (x == a) = true
    · rw [if_pos hx] at h
      have hii : i0 = i := Option.some.inj h
      subst hii
      simp [List.erase_cons, hx, Nat.sub_self]
    · rw [if_neg hx] at h
      have hb := findIdx?_found (fun x => x == a) a xs (i0 + 1) i h
      have hrec := ih (i0 + 1) i h
      have hx' : (x == a) = false := by
        revert hx; cases x == a <;> simp
      have hstep : i - i0 = (i - (i0 + 1)) + 1 := by omega
      simp [List.erase_cons, hx', hstep, List.eraseIdx_cons_succ, hrec]

theorem mem_of_findIdx?_beq {a : String} {l : List String} {i : Nat}
    (h : List.findIdx? (fun x => x == a) l = some i) : a ∈ l := by
  obtain ⟨hlt, hp⟩ := findIdx?_found0 (fun x => x == a) a h
  have : l.getD i a = a := eq_of_beq hp
  rw [List.getD_eq_getElem l a hlt] at this
  rw [← this]
  exact List.getElem_mem hlt

theorem set_map_eq_map_eff (L : List String) (f : String → Nat) (G : Nat) (gi : Nat)
    (hnd : L.Nodup) (hfind : List.findIdx? (fun x => x == "g") L = some gi) :
    (L.map f).set gi G = L.map fun k => if k = "g" then G else f k := by
  obtain ⟨hlt, hp⟩ := findIdx?_found0 (fun x => x == "g") "g" hfind
  have hgelem : L[gi] = "g" := by
    have := eq_of_beq hp
    rwa [List.getD_eq_getElem L "g" hlt] at this
  apply List.ext_getElem
  · simp
  · intro n h1 h2
    have hn : n < L.length := by simpa using h2
    rw [List.getElem_set]
    by_cases hgn : gi = n
    · subst hgn
      rw [if_pos rfl, List.getElem_map, if_pos hgelem]
    · rw [if_neg hgn, List.getElem_map, List.getElem_map]
      have hne : L[n] ≠ "g" := by
        intro hcontra
        rw [← hgelem] at hcontra
        exact hgn ((hnd.getElem_inj_iff).1 hcontra).symm
      rw [if_neg hne]

/-! ### `startLoop` characterization -/

theorem startLoop_charac (fname uid dtype : String) (yx : List Nat) (px : Nat) :
    ∀ (specs : List LayerSpec) (st st' : HandlerState) (acts : List StartAction),
      startLoop fname uid dtype yx px specs st = .ok (st', acts) →
      acts = specs.map (fun sp => StartAction.createStore sp.id) ∧
      st'.viewer.layers = st.viewer.layers ++ specs.map (mkLayer fname uid) ∧
      st'.paused = st.paused ∧
      st'.connected = st.connected ∧
      st'.viewer.currentStep = st.viewer.currentStep := by
  intro specs
  induction specs with
  | nil =>
    intro st st' acts h
    simp only [startLoop] at h
    cases h
    simp
  | cons sp rest ih =>
    intro st st' acts h
    simp only [startLoop] at h
    by_cases hpx : px = 0
    · rw [if_pos hpx] at h; exact absurd h (by simp)
    · rw [if_neg hpx] at h
      obtain ⟨r, hrec, hf⟩ := exceptMap_ok h
      cases hf
      obtain ⟨ha, hl, hp, hc, hcs⟩ := ih _ r.1 r.2 hrec
      refine ⟨by simp [ha], ?_, by simpa using hp, by simpa using hc, by simpa using hcs⟩
      rw [hl]
      simp [List.append_assoc]

theorem startLoop_lookup_preserve (fname uid dtype : String) (yx : List Nat) (px : Nat) :
    ∀ (specs : List LayerSpec) (st st' : HandlerState) (acts : List StartAction),
      startLoop fname uid dtype yx px specs st = .ok (st', acts) →
      ∀ k : String, (∀ sp ∈ specs, sp.id ≠ k) →
        List.lookup k st'.tmp = List.lookup k st.tmp := by
  intro specs
  induction specs with
  | nil =>
    intro st st' acts h k _
    simp only [startLoop] at h
    cases h
    rfl
  | cons sp rest ih =>
    intro st st' acts h k hk
    simp only [startLoop] at h
    by_cases hpx : px = 0
    · rw [if_pos hpx] at h; exact absurd h (by simp)
    · rw [if_neg hpx] at h
      obtain ⟨r, hrec, hf⟩ := exceptMap_ok h
      cases hf
      rw [ih _ r.1 r.2 hrec k fun q hq => hk q (List.mem_cons_of_mem _ hq)]
      exact assocSet_lookup_other _ _ fun hh =>
        hk sp (List.mem_cons_self _ _) hh.symm

theorem startLoop_lookup (fname uid dtype : String) (yx : List Nat) (px : Nat) :
    ∀ (specs : List LayerSpec) (st st' : HandlerState) (acts : List StartAction),
      startLoop fname uid dtype yx px specs st = .ok (st', acts) →
      (specs.map LayerSpec.id).Nodup →
      ∀ sp ∈ specs, List.lookup sp.id st'.tmp = some (mkEntry dtype yx sp) := by
  intro specs
  induction specs with
  | nil => intro st st' acts _ _ sp hsp; simp at hsp
  | cons sp0 rest ih =>
    intro st st' acts h hnd sp hsp
    simp only [startLoop] at h
    by_cases hpx : px = 0
    · rw [if_pos hpx] at h; exact absurd h (by simp)
    · rw [if_neg hpx] at h
      obtain ⟨r, hrec, hf⟩ := exceptMap_ok h
      cases hf
      rw [List.map_cons, List.nodup_cons] at hnd
      rcases List.mem_cons.1 hsp with rfl | hmem
      · rw [startLoop_lookup_preserve fname uid dtype yx px rest _ r.1 r.2 hrec sp.id
          fun q hq hcontra => hnd.1 (hcontra ▸ List.mem_map_of_mem LayerSpec.id hq)]
        exact assocSet_lookup_self _ _ _
      · exact ih _ r.1 r.2 hrec hnd.2 sp hmem

/-! ### `_cleanup` computation -/

theorem cleanupConns_ok (l : List Bool) :
    cleanupConns l = .ok (l.map fun _ => false) := by
  induction l with
  | nil => rfl
  | cons c rest ih =>
    cases c <;> simp [cleanupConns, pyDisconnect, suppress, ih, Except.map]

theorem cleanupTmp_ok (l : List (String × ZarrEntry)) :
    cleanupTmp l = .ok
      (l.map fun q => (q.1, { q.2 with storeOpen := false, dirPresent := false }),
        l.filterMap fun q => if q.2.dirPresent then some q.1 else none) := by
  induction l with
  | nil => rfl
  | cons q rest ih =>
    obtain ⟨id, e⟩ := q
    cases he : e.dirPresent <;>
      simp [cleanupTmp, tmpdirCleanup, suppress, ih, he, List.filterMap_cons, Except.map]

/-! ### The allocation-time mutation -/

theorem mutOne_name (m : SeqMeta) (p : Position) : (mutOne m p).name = p.name := by
  unfold mutOne
  cases p.sequence with
  | none => rfl
  | some sub => by_cases h : sub.gridNoGrid <;> simp [h]

theorem posName_mutOne (m : SeqMeta) (p : Position) (i : Nat) :
    posName (mutOne m p) i = posName p i := by
  unfold posName
  rw [mutOne_name]

theorem mutOne_defPos (m : SeqMeta) : mutOne m defPos = defPos := rfl

theorem firstSubSeq_map_mutOne (m : SeqMeta) :
    ∀ ps : List Position, firstSubSeq (ps.map (mutOne m)) =
      (firstSubSeq ps).map fun sub =>
        if sub.gridNoGrid then sub else { sub with meta := some m } := by
  intro ps
  induction ps with
  | nil => rfl
  | cons p rest ih =>
    cases hp : p.sequence with
    | none =>
      have hm : (mutOne m p).sequence = none := by simp [mutOne, hp]
      simp [firstSubSeq, hm, hp, ih]
    | some sub =>
      cases hg : sub.gridNoGrid with
      | true =>
        have hm : (mutOne m p).sequence = some sub := by simp [mutOne, hp, hg]
        simp [firstSubSeq, hm, hp, hg]
      | false =>
        have hm : (mutOne m p).sequence = some { sub with meta := some m } := by
          simp [mutOne, hp, hg]
        simp [firstSubSeq, hm, hp, hg]

theorem get_axis_labels_allocMutate (m : SeqMeta) (s : MDASequence) :
    get_axis_labels (allocMutate m s) = get_axis_labels s := by
  unfold get_axis_labels allocMutate
  by_cases hsp : s.stage_positions = []
  · simp [hsp]
  · have hsp' : s.stage_positions.map (mutOne m) ≠ [] := by
      simpa using hsp
    simp only [hsp, hsp', if_neg, firstSubSeq_map_mutOne]
    cases hf : firstSubSeq s.stage_positions with
    | none => rfl
    | some sub => cases hg : sub.gridNoGrid <;> simp [hg]

theorem effSize_mutOne (m : SeqMeta) (s : MDASequence) (p : Position) (k : String) :
    effSize s (mutOne m p) k = effSize s p k := by
  cases hp : p.sequence with
  | none => simp [effSize, mutOne, hp]
  | some sub => cases hg : sub.gridNoGrid <;> simp [effSize, mutOne, hp, hg]

theorem mutOne_noSub {m : SeqMeta} {p : Position} (h : p.sequence = none) :
    mutOne m p = p := by
  unfold mutOne
  rw [h]

theorem get_axis_labels_flag_false {s : MDASequence}
    (h : (get_axis_labels s).2 = false) :
    ∀ p ∈ s.stage_positions, p.sequence = none := by
  unfold get_axis_labels at h
  by_cases hsp : s.stage_positions = []
  · intro p hp
    rw [hsp] at hp
    simp at hp
  · rw [if_neg hsp] at h
    cases hf : firstSubSeq s.stage_positions with
    | some sub => rw [hf] at h; simp at h
    | none => exact firstSubSeq_eq_none_imp hf

theorem mutate_noSub {m : SeqMeta} {s : MDASequence}
    (h : ∀ p ∈ s.stage_positions, p.sequence = none) :
    allocMutate m s = s := by
  unfold allocMutate
  have hmap : s.stage_positions.map (mutOne m) = s.stage_positions := by
    calc s.stage_positions.map (mutOne m)
        = s.stage_positions.map id := List.map_congr_left fun p hp => mutOne_noSub (h p hp)
      _ = s.stage_positions := List.map_id _
  rw [hmap]

/-! ### `_determine_sequence_layers`, branch by branch -/

theorem determine_noPos_noSplit {s : MDASequence} {m : SeqMeta} {L0 : List String}
    (hm : s.meta = some m) (hsc : m.split_channels = false)
    (hflag : get_axis_labels s = (L0, false)) :
    determine_sequence_layers s =
      .ok (L0 ++ ["y", "x"], [⟨s.uid, L0.map (sizeOr1 s.sizes), none⟩], s) := by
  unfold determine_sequence_layers
  rw [hm]
  simp only [hflag, hsc]
  rfl

theorem determine_noPos_split {s : MDASequence} {m : SeqMeta} {L0 : List String}
    {ci : Nat} (hm : s.meta = some m) (hsc : m.split_channels = true)
    (hflag : get_axis_labels s = (L0, false))
    (hci : List.findIdx? (fun a => a == "c") L0 = some ci) :
    determine_sequence_layers s =
      .ok (L0.eraseIdx ci ++ ["y", "x"],
        chanEntries s.uid ((L0.map (sizeOr1 s.sizes)).eraseIdx ci) 0 s.channels, s) := by
  unfold determine_sequence_layers
  rw [hm]
  simp only [hflag, hsc, hci]
  rfl

theorem determine_pos_noSplit {s : MDASequence} {m : SeqMeta} {L0 : List String}
    (hm : s.meta = some m) (hsc : m.split_channels = false)
    (hflag : get_axis_labels s = (L0, true)) :
    determine_sequence_layers s =
      (posLoop m s L0 (L0.map (sizeOr1 s.sizes)) 0 s.stage_positions).map
        fun r => (L0 ++ ["y", "x"], r.1, { s with stage_positions := r.2 }) := by
  unfold determine_sequence_layers
  rw [hm]
  simp only [hflag, hsc]
  rfl

theorem determine_pos_split {s : MDASequence} {m : SeqMeta} {L0 : List String}
    {ci : Nat} (hm : s.meta = some m) (hsc : m.split_channels = true)
    (hflag : get_axis_labels s = (L0, true))
    (hci : List.findIdx? (fun a => a == "c") L0 = some ci) :
    determine_sequence_layers s =
      (posLoop m s (L0.eraseIdx ci) ((L0.map (sizeOr1 s.sizes)).eraseIdx ci) 0
          s.stage_positions).map
        fun r => (L0.eraseIdx ci ++ ["y", "x"], r.1, { s with stage_positions := r.2 }) := by
  unfold determine_sequence_layers
  rw [hm]
  simp only [hflag, hsc, hci]
  rfl

theorem determine_mut {s : MDASequence} {m : SeqMeta} {labels : List String}
    {es : List LayerSpec} {t : MDASequence} (hm : s.meta = some m)
    (hdet : determine_sequence_layers s = .ok (labels, es, t)) :
    t = allocMutate m s := by
  rcases hga : get_axis_labels s with ⟨L0, pf⟩
  cases pf with
  | false =>
    have hall := get_axis_labels_flag_false (s := s) (by rw [hga])
    cases hsc : m.split_channels with
    | false =>
      rw [determine_noPos_noSplit hm hsc hga] at hdet
      have ht : t = s := congrArg (fun q => q.2.2) (Except.ok.inj hdet) |>.symm
      rw [ht, mutate_noSub hall]
    | true =>
      cases hci : List.findIdx? (fun a => a == "c") L0 with
      | none =>
        rw [determine_sequence_layers] at hdet
        rw [hm] at hdet
        simp [hga, hsc, hci] at hdet
      | some ci =>
        rw [determine_noPos_split hm hsc hga hci] at hdet
        have ht : t = s := congrArg (fun q => q.2.2) (Except.ok.inj hdet) |>.symm
        rw [ht, mutate_noSub hall]
  | true =>
    cases hsc : m.split_channels with
    | false =>
      rw [determine_pos_noSplit hm hsc hga] at hdet
      obtain ⟨r, hrec, hf⟩ := exceptMap_ok hdet
      have ht : t = { s with stage_positions := r.2 } :=
        (congrArg (fun q => q.2.2) hf).symm
      rw [ht, posLoop_qs m s L0 _ 0 s.stage_positions r.1 r.2 (by rw [← hrec])]
      rfl
    | true =>
      cases hci : List.findIdx? (fun a => a == "c") L0 with
      | none =>
        rw [determine_sequence_layers] at hdet
        rw [hm] at hdet
        simp [hga, hsc, hci] at hdet
      | some ci =>
        rw [determine_pos_split hm hsc hga hci] at hdet
        obtain ⟨r, hrec, hf⟩ := exceptMap_ok hdet
        have ht : t = { s with stage_positions := r.2 } :=
          (congrArg (fun q => q.2.2) hf).symm
        rw [ht, posLoop_qs m s _ _ 0 s.stage_positions r.1 r.2 (by rw [← hrec])]
        rfl

/-- The resolver's position name agrees with the allocator's `posName` when
the event carries the position's name and index. -/
theorem eventPosName_ok {ev : MDAEvent} {p : Position} {i : Nat}
    (hnm : ev.pos_name = p.name) (hpi : List.lookup "p" ev.index = some i) :
    eventPosName ev = .ok (posName p i) := by
  unfold eventPosName posName
  rw [hnm]
  cases p.name with
  | none => simp [orRaise, hpi, Except.map]
  | some n => by_cases hn : n = "" <;> simp [hn, orRaise, hpi, Except.map]

/-- `chanSuffix` without splitting: empty suffix, axis order untouched. -/
theorem chanSuffix_noSplit {m : SeqMeta} {ev : MDAEvent} {order0 : List String}
    (hsc : m.split_channels = false) :
    chanSuffix m ev order0 = .ok ("", order0) := by
  unfold chanSuffix
  rw [hsc]
  rfl

/-- `chanSuffix` with splitting and a channel-carrying event. -/
theorem chanSuffix_split {m : SeqMeta} {ev : MDAEvent} {order0 : List String}
    {ch : Channel} {ci : Nat} (hsc : m.split_channels = true)
    (hchv : ev.channel = some ch) (hcl : List.lookup "c" ev.index = some ci)
    (hcont : "c" ∈ order0) :
    chanSuffix m ev order0 =
      .ok ("_" ++ ch.config ++ "_" ++ fmt003 ci, order0.erase "c") := by
  unfold chanSuffix
  rw [hsc, hchv, hcl]
  dsimp only
  rw [if_pos (List.elem_eq_true_of_mem hcont)]
  rfl

/-- `posPrefixId` when no position carries a sub-plan. -/
theorem posPrefixId_false {pfx0 : String} {ev : MDAEvent} {sfx : String} :
    posPrefixId false pfx0 ev sfx = .ok (pfx0, ev.sequence.uid ++ sfx) := rfl

/-- `posPrefixId` in per-position mode, for an event carrying the position's
name and index. -/
theorem posPrefixId_true {pfx0 : String} {ev : MDAEvent} {sfx : String}
    {p : Position} {i : Nat} (hnm : ev.pos_name = p.name)
    (hpi : List.lookup "p" ev.index = some i) :
    posPrefixId true pfx0 ev sfx =
      .ok (pfx0 ++ "_" ++ posName p i, posName p i ++ "_" ++ ev.sequence.uid ++ sfx) := by
  unfold posPrefixId
  rw [if_pos rfl, eventPosName_ok hnm hpi]
  rfl

/-- `_id_idx_layer` computed from the outcomes of its two fallible steps. -/
theorem id_idx_layer_spec {ev : MDAEvent} {m : SeqMeta} {L0 : List String}
    {pf : Bool} {sfx : String} {order : List String} {idpfx : String × String}
    (hmeta : ev.sequence.meta = some m)
    (hgat : get_axis_labels ev.sequence = (L0, pf))
    (hcs : chanSuffix m ev L0 = .ok (sfx, order))
    (hpp : posPrefixId pf (if m.should_save then m.file_name else "Exp") ev sfx =
      .ok idpfx) :
    id_idx_layer ev = .ok (idpfx.2,
      order.map fun k => (List.lookup k ev.index).getD 0,
      idpfx.1 ++ "_" ++ ev.sequence.uid ++ sfx) := by
  unfold id_idx_layer
  rw [hmeta]
  dsimp only
  rw [hgat]
  dsimp only
  rw [hcs]
  dsimp only
  rw [hpp]

/-- `effSize` of a position without a sub-plan is the plan's own size. -/
theorem effSize_none {s : MDASequence} {p : Position} (h : p.sequence = none) :
    effSize s p = sizeOr1 s.sizes := by
  funext k
  unfold effSize
  rw [h]

/-- The per-position shape (shared shape with the `"g"` entry overridden by
the position's own grid size) as a map over the labels. -/
theorem posShape_eq (s : MDASequence) {P : Position} {sub : SubSeq}
    (L : List String) (hnd : L.Nodup) (hsub : P.sequence = some sub) {gi : Nat}
    (hgi : List.findIdx? (fun a => a == "g") L = some gi) :
    (L.map (sizeOr1 s.sizes)).set gi ((List.lookup "g" sub.sizes).getD 0) =
      L.map (effSize s P) := by
  rw [set_map_eq_map_eff L (sizeOr1 s.sizes) _ gi hnd hgi]
  exact List.map_congr_left fun k hk => by
    unfold effSize
    rw [hsub]

/-- The `j`-th per-channel layer spec is one of the split-channel entries. -/
theorem chanEntries_getD_mem (pre : String) (shape : List Nat) (chs : List Channel)
    {j : Nat} (hj : j < chs.length) :
    (⟨pre ++ "_" ++ chanId (chs.getD j ⟨""⟩) j, shape,
      some (chanId (chs.getD j ⟨""⟩) j)⟩ : LayerSpec) ∈ chanEntries pre shape 0 chs := by
  have hlen : j < (chanEntries pre shape 0 chs).length := by
    rw [chanEntries_length]
    exact hj
  have hg := chanEntries_getD pre shape 0 chs j hj
  rw [Nat.zero_add] at hg
  rw [List.getD_eq_getElem _ _ hlen] at hg
  rw [← hg]
  exact List.getElem_mem hlen

/-- Componentwise comparison of two maps over the same label list. -/
theorem bounds_map (L : List String) (f g : String → Nat)
    (h : ∀ k ∈ L, f k < g k) :
    (L.map f).length = (L.map g).length ∧
    ∀ i, i < (L.map f).length → (L.map f).getD i 0 < (L.map g).getD i 0 := by
  refine ⟨by simp, ?_⟩
  intro i hi
  have hiL : i < L.length := by simpa using hi
  rw [List.getD_eq_getElem _ _ hi, List.getD_eq_getElem _ _ (by simpa using hiL),
    List.getElem_map, List.getElem_map]
  exact h _ (List.getElem_mem hiL)

/-- The `_tmp_arrays` dict is unchanged by the final pause-toggle branch of
`_on_mda_started`. -/
theorem if_pair_tmp_eq {c : Prop} [Decidable c] {st3 st' : HandlerState} {b : Bool}
    {a1 a2 acts : List StartAction}
    (h : (if c then ({ st3 with paused := b }, a1) else (st3, a2)) = (st', acts)) :
    st'.tmp = st3.tmp := by
  by_cases hc : c
  · rw [if_pos hc] at h
    exact (congrArg (fun q : HandlerState × List StartAction => q.1.tmp) h).symm
  · rw [if_neg hc] at h
    exact (congrArg (fun q : HandlerState × List StartAction => q.1.tmp) h).symm

/-! ## Claims -/

/-- C7: for every handler state (any set of created backing stores,
including none), calling `_cleanup` twice in succession never raises and
never frees the same resource twice: the first call succeeds, and the second
call succeeds, leaves the state unchanged, and frees no temporary directory
(every fallible step is either suppressed by the source's
`contextlib.suppress` or a no-op on already-released resources). -/
theorem c7_cleanup_idempotent (st : HandlerState) :
    ∃ st1 freed1, cleanup st = .ok (st1, freed1) ∧ cleanup st1 = .ok (st1, []) := by
  refine ⟨_, _, by rw [cleanup, cleanupConns_ok, cleanupTmp_ok], ?_⟩
  rw [cleanup, cleanupConns_ok, cleanupTmp_ok]
  simp [List.map_map, List.filterMap_map, Function.comp]

/-- C8 fails as stated: allocation does not leave the sequence unchanged.
For the concrete plan `cSeqMut` (one stage position carrying a grid
sub-plan), `_determine_sequence_layers` succeeds but returns a sequence
object different from the input — the parent's `SequenceMeta` has been
written into the nested sub-plan's metadata dict
(`p.sequence.metadata["napari_mm_sequence_meta"] = meta`). -/
theorem c8_counterexample :
    exIsOk (determine_sequence_layers cSeqMut) = true ∧
    (determine_sequence_layers cSeqMut).toOption.map (fun r => r.2.2) ≠ some cSeqMut := by
  constructor
  · rfl
  · decide

/-- C8 (amended): allocation leaves the sequence unchanged *except* that it
writes the parent's `SequenceMeta` into the metadata dict of every
grid-carrying (non-`NoGrid`) per-position sub-plan; in particular when no
position carries such a sub-plan the sequence is returned unchanged.  Index
resolution and frame handling only read the sequence (they are pure
functions of it in this embedding). -/
theorem c8_amended (s : MDASequence) (m : SeqMeta) (labels : List String)
    (es : List LayerSpec) (t : MDASequence) (hm : s.meta = some m)
    (hdet : determine_sequence_layers s = .ok (labels, es, t)) :
    t = allocMutate m s ∧
    ((∀ p ∈ s.stage_positions, ∀ sub, p.sequence = some sub → sub.gridNoGrid = true) →
      t = s) := by
  have h1 := determine_mut hm hdet
  refine ⟨h1, fun hall => ?_⟩
  rw [h1]
  unfold allocMutate
  have hmap : s.stage_positions.map (mutOne m) = s.stage_positions := by
    calc s.stage_positions.map (mutOne m)
        = s.stage_positions.map id := List.map_congr_left fun p hp => by
          cases hps : p.sequence with
          | none => exact mutOne_noSub hps
          | some sub =>
            have hg := hall p hp sub hps
            simp [mutOne, hps, hg]
      _ = s.stage_positions := List.map_id _
  rw [hmap]

/-- Witness for C8 (amended) at the concrete plan `cSeqMut`. -/
theorem c8_amended_witness :
    cSeqMut.meta = some cMeta ∧
    determine_sequence_layers cSeqMut = .ok (cL8, cE8, cT8) ∧
    cT8 = allocMutate cMeta cSeqMut :=
  ⟨rfl, by rfl, (c8_amended cSeqMut cMeta cL8 cE8 cT8 rfl (by rfl)).1⟩

/-- C9 fails as stated: the engine can be left permanently paused.  For the
concrete plan `cSeqNG2` (whose only position carries a `NoGrid` sub-plan)
`_on_mda_started` succeeds, toggles pause exactly once, creates no layer, and
— because the resume loop only fires when some viewer layer carries the
sequence's uid — returns with the engine still paused. -/
theorem c9_counterexample :
    cState0.paused = false ∧
    (on_mda_started cState0 cSeqNG2 512 512 16 1).toOption.map
      (fun r => (r.1.paused, r.2)) =
      some (true, [StartAction.toggle, StartAction.setAxisLabels]) := by
  constructor
  · rfl
  · rfl

/-- C9 (amended): on a managed start that returns, the engine is
pause-toggled first, every backing store is created between the two
toggles, and the engine is resumed (second toggle, net pause state restored)
*provided allocation produced at least one layer*; when allocation yields no
layer specs the second toggle never happens and the engine is left paused. -/
theorem c9_amended (st : HandlerState) (s : MDASequence) (m : SeqMeta)
    (imgH imgW bd px : Nat) (labels : List String) (specs : List LayerSpec)
    (t : MDASequence) (st' : HandlerState) (acts : List StartAction)
    (hm : s.meta = some m)
    (hdet : determine_sequence_layers s = .ok (labels, specs, t))
    (hok : on_mda_started st s imgH imgW bd px = .ok (st', acts))
    (hpre : ∀ l ∈ st.viewer.layers, l.uidMeta ≠ some s.uid) :
    (specs ≠ [] →
      acts = .toggle :: specs.map (fun sp => StartAction.createStore sp.id)
        ++ [.setAxisLabels, .toggle] ∧ st'.paused = st.paused) ∧
    (specs = [] →
      acts = [.toggle, .setAxisLabels] ∧ st'.paused = !st.paused) := by
  unfold on_mda_started at hok
  rw [hm, hdet] at hok
  obtain ⟨r, hrec, hf⟩ := exceptMap_ok hok
  obtain ⟨ha, hl, hp, _, _⟩ := startLoop_charac _ _ _ _ _ specs _ r.1 r.2 hrec
  have hpA : ∀ l ∈ st.viewer.layers, decide (l.uidMeta = some s.uid) = false :=
    fun l hls => decide_eq_false (hpre l hls)
  cases specs with
  | nil =>
    have hany : (r.1.viewer.layers.any fun l => decide (l.uidMeta = some s.uid)) = false := by
      rw [hl]
      simp only [List.map_nil, List.append_nil, List.any_eq_false]
      intro l hls
      simpa using hpre l hls
    rw [if_neg (by rw [hany]; exact Bool.false_ne_true)] at hf
    refine ⟨fun hne => absurd rfl hne, fun _ => ?_⟩
    have hacts : acts = [StartAction.toggle, StartAction.setAxisLabels] := by
      have := congrArg Prod.snd hf
      simp only at this
      rw [← this, ha]
      try rfl
    have hpause : st'.paused = !st.paused := by
      have := congrArg (fun q => q.1.paused) hf
      simp only at this
      rw [← this, hp]
    exact ⟨hacts, hpause⟩
  | cons sp rest =>
    have hany : (r.1.viewer.layers.any fun l => decide (l.uidMeta = some s.uid)) = true := by
      rw [hl, List.any_append]
      apply Bool.or_eq_true_iff.2
      right
      rw [List.map_cons, List.any_cons]
      apply Bool.or_eq_true_iff.2
      left
      simp [mkLayer]
    rw [if_pos (by rw [hany])] at hf
    refine ⟨fun _ => ?_, fun hcontra => by cases hcontra⟩
    have hacts : acts = .toggle :: (sp :: rest).map (fun q => StartAction.createStore q.id)
        ++ [.setAxisLabels, .toggle] := by
      have := congrArg Prod.snd hf
      simp only at this
      rw [← this, ha]
      try rfl
    have hpause : st'.paused = st.paused := by
      have := congrArg (fun q => q.1.paused) hf
      simp only at this
      rw [← this]
      simp [hp]
    exact ⟨hacts, hpause⟩

/-- Witness for C9 (amended) at `cSeq6`: a plan that does create a layer is
paused and then resumed (net pause state restored), with the store creation
between the two toggles. -/
theorem c9_amended_witness :
    cSeq6.meta = some cMeta ∧
    determine_sequence_layers cSeq6 = .ok (cL6, cE6, cSeq6) ∧
    on_mda_started cState0 cSeq6 512 512 16 1 = .ok (cStarted6.1, cStarted6.2) ∧
    (∀ l ∈ cState0.viewer.layers, l.uidMeta ≠ some cSeq6.uid) ∧
    cE6 ≠ [] ∧
    cStarted6.2 = .toggle :: cE6.map (fun sp => StartAction.createStore sp.id)
      ++ [.setAxisLabels, .toggle] ∧
    cStarted6.1.paused = cState0.paused :=
  ⟨rfl, by rfl, by rfl, by simp [cState0], by decide,
    (c9_amended cState0 cSeq6 cMeta 512 512 16 1 cL6 cE6 cSeq6 cStarted6.1
      cStarted6.2 rfl (by rfl) (by rfl) (by simp [cState0])).1 (by decide)⟩

/-- C2 fails as stated: `_on_mda_frame` contains no exception handler, so a
per-frame error escapes to the caller instead of being converted into a
result value.  Concretely: after `_on_mda_started` ran for `cSeqNG` (whose
position `"A"` was skipped because its sub-plan has a `NoGrid` grid plan),
the frame for position `"A"` resolves to id `"A_U"`, which has no backing
store, and `self._tmp_arrays[_id]` raises `KeyError` out of
`_on_mda_frame`. -/
theorem c2_counterexample :
    on_mda_frame cStateAfterNG 512 512 cEvNG = .error .keyError := by rfl

/-- C2 (amended): `_on_mda_frame` catches nothing.  An unmanaged event (no
`napari_mm_sequence_meta`) returns with the state untouched; but for a
managed event whose resolved id has no backing store the `KeyError`
propagates, and when the resolved coordinate does not fit the pre-allocated
array the indexing error propagates — the frame is not rejected-and-ignored,
the exception escapes the `on_frame` boundary. -/
theorem c2_amended :
    (∀ (st : HandlerState) (h w : Nat) (ev : MDAEvent),
      ev.sequence.meta = none → on_mda_frame st h w ev = .ok st) ∧
    (∀ (st : HandlerState) (h w : Nat) (ev : MDAEvent) (m : SeqMeta)
      (id : String) (idx : List Nat) (ln : String),
      ev.sequence.meta = some m → id_idx_layer ev = .ok (id, idx, ln) →
      List.lookup id st.tmp = none →
      on_mda_frame st h w ev = .error .keyError) ∧
    (∀ (st : HandlerState) (h w : Nat) (ev : MDAEvent) (m : SeqMeta)
      (id : String) (idx : List Nat) (ln : String) (entry : ZarrEntry) (er : PyErr),
      ev.sequence.meta = some m → id_idx_layer ev = .ok (id, idx, ln) →
      List.lookup id st.tmp = some entry → zarrSet entry idx h w = .error er →
      on_mda_frame st h w ev = .error er) := by
  refine ⟨?_, ?_, ?_⟩
  · intro st h w ev hm
    unfold on_mda_frame
    rw [hm]
  · intro st h w ev m id idx ln hm hid hlook
    unfold on_mda_frame
    rw [hm, hid]
    dsimp only
    rw [hlook]
  · intro st h w ev m id idx ln entry er hm hid hlook hz
    unfold on_mda_frame
    rw [hm, hid]
    dsimp only
    rw [hlook]
    dsimp only
    rw [hz]

/-- Witness for C2 (amended): an unmanaged event passes through unchanged;
the skipped-position event raises `KeyError`; an out-of-range coordinate
raises `IndexError`. -/
theorem c2_amended_witness :
    on_mda_frame cState0 512 512 cEvUnmanaged = .ok cState0 ∧
    on_mda_frame cStateAfterNG 512 512 cEvNG = .error .keyError ∧
    on_mda_frame cStC5 512 512 cEvOOB = .error .indexError :=
  ⟨c2_amended.1 cState0 512 512 cEvUnmanaged rfl,
    c2_amended.2.1 cStateAfterNG 512 512 cEvNG cMeta "A_U" [0] "Exp_A_U"
      rfl (by rfl) (by rfl),
    c2_amended.2.2 cStC5 512 512 cEvOOB cMeta "U" [7, 0] "Exp_U"
      ⟨[2, 2, 512, 512], "uint16", true, true, []⟩ .indexError
      rfl (by rfl) (by rfl) (by rfl)⟩

/-- C5 fails as stated: `_on_mda_frame` never compares the new coordinate
with the displayed one — it unconditionally overwrites the leading entries of
`viewer.dims.current_step`.  Concretely, with the display cursor at
`[1,0,0,0]`, the frame at coordinate `[0,0]` moves the cursor to
`[0,0,0,0]`, which is lexicographically *earlier*. -/
theorem c5_counterexample :
    cStC5.viewer.currentStep = [1, 0, 0, 0] ∧
    (on_mda_frame cStC5 512 512 cEvC5).toOption.map (fun r => r.viewer.currentStep) =
      some [0, 0, 0, 0] ∧
    lexLt cStC5.viewer.currentStep [0, 0, 0, 0] = false := by
  refine ⟨rfl, by rfl, rfl⟩

/-- C5 (amended): on every successful frame the viewer's current step is
set unconditionally — its leading `len(im_idx)` entries are replaced by the
frame's resolved coordinate (the trailing entries are kept), with no
monotonicity check, so the displayed coordinate simply tracks the most
recent frame and may move lexicographically backward. -/
theorem c5_amended (st : HandlerState) (h w : Nat) (ev : MDAEvent)
    (st' : HandlerState) (m : SeqMeta) (id : String) (idx : List Nat) (ln : String)
    (hm : ev.sequence.meta = some m)
    (hid : id_idx_layer ev = .ok (id, idx, ln))
    (hok : on_mda_frame st h w ev = .ok st') :
    st'.viewer.currentStep = idx ++ st.viewer.currentStep.drop idx.length := by
  unfold on_mda_frame at hok
  rw [hm, hid] at hok
  dsimp only at hok
  cases hlook : List.lookup id st.tmp with
  | none => rw [hlook] at hok; exact absurd hok (by simp)
  | some entry =>
    rw [hlook] at hok
    dsimp only at hok
    cases hz : zarrSet entry idx h w with
    | error er => rw [hz] at hok; exact absurd hok (by simp)
    | ok entry' =>
      rw [hz] at hok
      dsimp only at hok
      by_cases hlen : idx.length ≤ st.viewer.currentStep.length
      · rw [if_pos hlen] at hok
        cases hup : layerUpdate st.viewer.layers ln
            (fun l => { l with positions := l.positions ++ [idx], visible := true }) with
        | none => rw [hup] at hok; exact absurd hok (by simp)
        | some ls' =>
          rw [hup] at hok
          have := Except.ok.inj hok
          rw [← this]
      · rw [if_neg hlen] at hok
        exact absurd hok (by simp)

/-- Witness for C5 (amended) at the concrete backward-moving frame. -/
theorem c5_amended_witness :
    cEvC5.sequence.meta = some cMeta ∧
    id_idx_layer cEvC5 = .ok ("U", [0, 0], "Exp_U") ∧
    on_mda_frame cStC5 512 512 cEvC5 = .ok cStC5after ∧
    cStC5after.viewer.currentStep =
      [0, 0] ++ cStC5.viewer.currentStep.drop 2 :=
  ⟨rfl, by rfl, by rfl,
    c5_amended cStC5 512 512 cEvC5 cStC5after cMeta "U" [0, 0] "Exp_U"
      rfl (by rfl) (by rfl)⟩

/-- C3: for a plan without splitting and without nested per-position
sub-plans (and with every used axis of nonzero size, the `useq` invariant),
allocation emits exactly one array group whose id is the plan's uid and
whose shape is the plan's per-axis sizes in plan order; `_on_mda_started`
then backs it with a zarr array of that shape with the camera height and
width appended. -/
theorem c3_single_group (s : MDASequence) (m : SeqMeta)
    (hm : s.meta = some m) (hsc : m.split_channels = false)
    (hns : ∀ p ∈ s.stage_positions, p.sequence = none)
    (hsz : ∀ k ∈ s.usedAxes, (List.lookup k s.sizes).getD 0 ≠ 0) :
    determine_sequence_layers s =
      .ok (s.usedAxes ++ ["y", "x"],
        [⟨s.uid, s.usedAxes.map fun k => (List.lookup k s.sizes).getD 0, none⟩], s) ∧
    (∀ (st : HandlerState) (imgH imgW bd px : Nat) (st' : HandlerState)
      (acts : List StartAction), px ≠ 0 →
      on_mda_started st s imgH imgW bd px = .ok (st', acts) →
      List.lookup s.uid st'.tmp = some
        ⟨(s.usedAxes.map fun k => (List.lookup k s.sizes).getD 0) ++ [imgH, imgW],
          "uint" ++ toString bd, true, true, []⟩) := by
  have hflag := get_axis_labels_noSub hns
  have hshape : s.usedAxes.map (sizeOr1 s.sizes) =
      s.usedAxes.map fun k => (List.lookup k s.sizes).getD 0 :=
    List.map_congr_left fun k hk => by
      unfold sizeOr1
      rw [if_neg (hsz k hk)]
  have hdet := determine_noPos_noSplit hm hsc hflag
  rw [hshape] at hdet
  refine ⟨hdet, ?_⟩
  intro st imgH imgW bd px st' acts hpx hok
  unfold on_mda_started at hok
  rw [hm, hdet] at hok
  obtain ⟨r, hrec, hf⟩ := exceptMap_ok hok
  simp only [startLoop, if_neg hpx] at hrec
  obtain ⟨r2, hrec2, hf2⟩ := exceptMap_ok hrec
  obtain ⟨r2st, r2acts⟩ := r2
  injection Except.ok.inj hrec2 with h1 h2
  subst h1
  subst h2
  obtain ⟨rst, racts⟩ := r
  dsimp only at hf2
  injection hf2 with h3 h4
  subst h3
  subst h4
  dsimp only at hf
  have hfst := congrArg (fun q : HandlerState × List StartAction => q.1.tmp) hf
  dsimp only at hfst
  rw [apply_ite (fun q : HandlerState × List StartAction => q.1.tmp)] at hfst
  dsimp only at hfst
  rw [ite_self] at hfst
  rw [← hfst]
  exact assocSet_lookup_self _ _ _

/-- Witness for C3 at the `t=4, c=2, z=1` plan `cSeq6`. -/
theorem c3_witness :
    cSeq6.meta = some cMeta ∧
    cMeta.split_channels = false ∧
    (∀ p ∈ cSeq6.stage_positions, p.sequence = none) ∧
    (∀ k ∈ cSeq6.usedAxes, (List.lookup k cSeq6.sizes).getD 0 ≠ 0) ∧
    List.lookup "U" cStarted6.1.tmp =
      some ⟨[4, 2, 1, 512, 512], "uint16", true, true, []⟩ :=
  ⟨rfl, rfl, by simp [cSeq6], by decide,
    (c3_single_group cSeq6 cMeta rfl rfl (by simp [cSeq6]) (by decide)).2
      cState0 512 512 16 1 cStarted6.1 cStarted6.2 (by decide) (by rfl)⟩

/-- C4: for a plan with channel splitting, N configured channels and no
nested sub-plans, allocation emits exactly N groups; each group's shape is
the shared shape with the channel entry removed, and each group's id is the
uid suffixed by the channel's config and its zero-padded per-channel index —
and those N ids are pairwise distinct even when channel configs repeat. -/
theorem c4_split_channels (s : MDASequence) (m : SeqMeta) (ci : Nat)
    (hm : s.meta = some m) (hsc : m.split_channels = true)
    (hns : ∀ p ∈ s.stage_positions, p.sequence = none)
    (hci : List.findIdx? (fun a => a == "c") s.usedAxes = some ci) :
    determine_sequence_layers s =
      .ok (s.usedAxes.eraseIdx ci ++ ["y", "x"],
        chanEntries s.uid ((s.usedAxes.map (sizeOr1 s.sizes)).eraseIdx ci) 0
          s.channels, s) ∧
    (chanEntries s.uid ((s.usedAxes.map (sizeOr1 s.sizes)).eraseIdx ci) 0
        s.channels).length = s.channels.length ∧
    (∀ j, j < s.channels.length →
      (chanEntries s.uid ((s.usedAxes.map (sizeOr1 s.sizes)).eraseIdx ci) 0
          s.channels).getD j defSpec =
        ⟨s.uid ++ "_" ++ chanId (s.channels.getD j ⟨""⟩) j,
          (s.usedAxes.map (sizeOr1 s.sizes)).eraseIdx ci,
          some (chanId (s.channels.getD j ⟨""⟩) j)⟩) ∧
    ((chanEntries s.uid ((s.usedAxes.map (sizeOr1 s.sizes)).eraseIdx ci) 0
        s.channels).map LayerSpec.id).Nodup := by
  have hflag := get_axis_labels_noSub hns
  refine ⟨determine_noPos_split hm hsc hflag hci, chanEntries_length _ _ 0 _, ?_,
    chanEntries_ids_nodup _ _ 0 _⟩
  intro j hj
  have := chanEntries_getD s.uid
    ((s.usedAxes.map (sizeOr1 s.sizes)).eraseIdx ci) 0 s.channels j hj
  simpa [Nat.zero_add] using this

/-- Witness for C4 at `cSeqS` (`cSeq6` with splitting on): two channels give
two groups `U_DAPI_000`, `U_FITC_001` of shape `[4,1]`, distinct ids. -/
theorem c4_witness :
    cSeqS.meta = some cMetaS ∧
    cMetaS.split_channels = true ∧
    (∀ p ∈ cSeqS.stage_positions, p.sequence = none) ∧
    List.findIdx? (fun a => a == "c") cSeqS.usedAxes = some 1 ∧
    determine_sequence_layers cSeqS =
      .ok (["t", "z", "y", "x"],
        [⟨"U_DAPI_000", [4, 1], some "DAPI_000"⟩,
         ⟨"U_FITC_001", [4, 1], some "FITC_001"⟩], cSeqS) ∧
    ([("U_DAPI_000" : String), "U_FITC_001"]).Nodup :=
  ⟨rfl, rfl, by simp [cSeqS, cSeq6], by rfl,
    (c4_split_channels cSeqS cMetaS 1 rfl rfl (by simp [cSeqS, cSeq6]) (by rfl)).1,
    by decide⟩

/-- C6 fails as stated on one point: with `z` present at size 1, the single
allocated group's backing array is 5-D — `[4, 2, 1, 512, 512]` — not the
claimed `[4, 2, 512, 512]` (the z axis contributes a unit dimension). -/
theorem c6_counterexample :
    (on_mda_started cState0 cSeq6 512 512 16 1).toOption.map
      (fun r => r.1.tmp.map fun q => (q.1, q.2.shape)) =
      some [("U", [4, 2, 1, 512, 512])] ∧
    [(("U" : String), [4, 2, 1, 512, 512])] ≠ [("U", [4, 2, 512, 512])] :=
  ⟨by rfl, by decide⟩

/-- C6 (amended): for the `t=4, c=2, z=1` plan with a 512×512 camera,
allocation produces exactly one array group `"U"` of shape
`[4, 2, 1, 512, 512]`; the eight `(t, c)` events all resolve to that group,
with eight pairwise-distinct coordinates `[t, c, 0]`, each inside the
allocated `[4, 2, 1]` bounds, and running all eight frames writes each cell
exactly once (the written-coordinate log equals the eight distinct
coordinates). -/
theorem c6_amended :
    determine_sequence_layers cSeq6 = .ok (cL6, cE6, cSeq6) ∧
    (on_mda_started cState0 cSeq6 512 512 16 1).toOption.map
      (fun r => r.1.tmp.map fun q => (q.1, q.2.shape)) =
      some [("U", [4, 2, 1, 512, 512])] ∧
    (cEvents6.map fun e =>
      match id_idx_layer e with
      | .ok t => t.1
      | .error _ => "") = List.replicate 8 "U" ∧
    cCoords6 = [[0, 0, 0], [0, 1, 0], [1, 0, 0], [1, 1, 0],
      [2, 0, 0], [2, 1, 0], [3, 0, 0], [3, 1, 0]] ∧
    cCoords6.Nodup ∧
    (∀ v ∈ cCoords6, v.length = 3 ∧
      v.getD 0 0 < 4 ∧ v.getD 1 0 < 2 ∧ v.getD 2 0 < 1) ∧
    (List.lookup "U" cRun6.tmp).map (fun e => e.written) = some cCoords6 :=
  ⟨by rfl, by rfl, by rfl, by rfl, by decide, by decide, by rfl⟩

/-- C10: a stage position whose nested sub-plan has a `NoGrid` grid plan is
skipped by allocation (`continue`): no entry of the layer list carries that
position's id — while positions without sub-plans still get groups, and
`_id_idx_layer` still resolves events for the skipped position to an id of
the usual `{name}_{uid}{suffix}` form, an id with no backing layer.  (Stated
for underscore-free, pairwise-distinct position names, which is what both
the `useq` defaults `Pos{idx:03d}` and GUI-entered well names are.) -/
theorem c10_nogrid_skipped (s : MDASequence) (m : SeqMeta) (i₀ : Nat)
    (sub₀ : SubSeq) (labels : List String) (es : List LayerSpec) (t : MDASequence)
    (hm : s.meta = some m)
    (hi : i₀ < s.stage_positions.length)
    (hsub : (s.stage_positions.getD i₀ defPos).sequence = some sub₀)
    (hng : sub₀.gridNoGrid = true)
    (hdet : determine_sequence_layers s = .ok (labels, es, t))
    (husf : ∀ j, j < s.stage_positions.length →
      usFree (posName (s.stage_positions.getD j defPos) j))
    (hdist : ∀ j, j < s.stage_positions.length → j ≠ i₀ →
      posName (s.stage_positions.getD j defPos) j ≠
        posName (s.stage_positions.getD i₀ defPos) i₀) :
    (∀ (ev : MDAEvent) (id : String) (idx : List Nat) (ln : String),
      ev.sequence = t →
      ev.pos_name = (s.stage_positions.getD i₀ defPos).name →
      List.lookup "p" ev.index = some i₀ →
      id_idx_layer ev = .ok (id, idx, ln) →
      (∃ sfx, id = posName (s.stage_positions.getD i₀ defPos) i₀ ++ "_" ++
        (s.uid ++ sfx)) ∧
      id ∉ es.map LayerSpec.id) ∧
    (∀ j, j < s.stage_positions.length →
      (s.stage_positions.getD j defPos).sequence = none →
      (m.split_channels = false ∨ s.channels ≠ []) →
      ∃ e ∈ es, ∃ rest,
        e.id = posName (s.stage_positions.getD j defPos) j ++ "_" ++ rest) := by
  have ht := determine_mut hm hdet
  have hnn : (s.stage_positions.getD i₀ defPos).sequence ≠ none := by
    rw [hsub]
    exact Option.noConfusion
  obtain ⟨sub1, hfs⟩ := firstSubSeq_isSome hi hnn
  have hga : get_axis_labels s = (sub1.usedAxes, true) := get_axis_labels_sub hfs
  have hex : ∃ L B qs, posLoop m s L B 0 s.stage_positions = .ok (es, qs) := by
    cases hsc : m.split_channels with
    | false =>
      rw [determine_pos_noSplit hm hsc hga] at hdet
      obtain ⟨r, hrec, hf⟩ := exceptMap_ok hdet
      obtain ⟨res, rqs⟩ := r
      have hes : res = es := congrArg (fun q => q.2.1) hf
      exact ⟨_, _, rqs, by rw [hes] at hrec; exact hrec⟩
    | true =>
      cases hci : List.findIdx? (fun a => a == "c") sub1.usedAxes with
      | none =>
        rw [determine_sequence_layers] at hdet
        rw [hm] at hdet
        simp [hga, hsc, hci] at hdet
      | some ci =>
        rw [determine_pos_split hm hsc hga hci] at hdet
        obtain ⟨r, hrec, hf⟩ := exceptMap_ok hdet
        obtain ⟨res, rqs⟩ := r
        have hes : res = es := congrArg (fun q => q.2.1) hf
        exact ⟨_, _, rqs, by rw [hes] at hrec; exact hrec⟩
  obtain ⟨L, B, qs, hpl⟩ := hex
  constructor
  · intro ev id idx ln hseq hpname hpi hres
    have hmeta : ev.sequence.meta = some m := by rw [hseq, ht]; exact hm
    have hgat : get_axis_labels ev.sequence = (sub1.usedAxes, true) := by
      rw [hseq, ht, get_axis_labels_allocMutate]
      exact hga
    have huid : ev.sequence.uid = s.uid := by rw [hseq, ht]; rfl
    unfold id_idx_layer at hres
    rw [hmeta] at hres
    dsimp only at hres
    rw [hgat] at hres
    dsimp only at hres
    cases hcs : chanSuffix m ev sub1.usedAxes with
    | error e => rw [hcs] at hres; exact Except.noConfusion hres
    | ok pr =>
      obtain ⟨sfx, order⟩ := pr
      rw [hcs] at hres
      dsimp only at hres
      unfold posPrefixId at hres
      rw [if_pos rfl,
        eventPosName_ok (p := s.stage_positions.getD i₀ defPos) hpname hpi] at hres
      dsimp only [Except.map] at hres
      have hid : id = posName (s.stage_positions.getD i₀ defPos) i₀ ++ "_" ++
          ev.sequence.uid ++ sfx :=
        (congrArg (fun q => q.1) (Except.ok.inj hres)).symm
      rw [huid] at hid
      constructor
      · exact ⟨sfx, by rw [hid]; simp [String.append_assoc]⟩
      · intro hmem
        obtain ⟨e, he, heq⟩ := List.mem_map.1 hmem
        obtain ⟨j, hj, hkeep, rest, hidj⟩ :=
          posLoop_ids m s L B 0 s.stage_positions es qs hpl e he
        rw [Nat.zero_add] at hidj
        have heq2 : posName (s.stage_positions.getD j defPos) j ++ "_" ++ rest =
            posName (s.stage_positions.getD i₀ defPos) i₀ ++ "_" ++ (s.uid ++ sfx) := by
          rw [← hidj, heq, hid]
          simp [String.append_assoc]
        have hnames := (append_us_left_inj (husf j hj) (husf i₀ hi) heq2).1
        by_cases hji : j = i₀
        · subst hji
          rcases hkeep with hnone | ⟨sub', hsub', hng'⟩
          · rw [hsub] at hnone; exact Option.noConfusion hnone
          · rw [hsub] at hsub'
            have : sub₀ = sub' := Option.some.inj hsub'
            subst this
            rw [hng] at hng'
            exact Bool.noConfusion hng'
        · exact hdist j hj hji hnames
  · intro j hj hnone hch
    have hmem := (posLoop_entry m s L B 0 s.stage_positions es qs hpl j hj).1 hnone
    rw [Nat.zero_add] at hmem
    cases hsc : m.split_channels with
    | false =>
      refine ⟨⟨posName (s.stage_positions.getD j defPos) j ++ "_" ++ s.uid, B, none⟩,
        hmem _ ?_, s.uid, rfl⟩
      simp [mkPosEntries, hsc]
    | true =>
      rcases hch with hf | hne
      · rw [hsc] at hf; exact Bool.noConfusion hf
      · cases hchs : s.channels with
        | nil => exact absurd hchs hne
        | cons ch rest =>
          refine ⟨⟨(posName (s.stage_positions.getD j defPos) j ++ "_" ++ s.uid)
            ++ "_" ++ chanId ch 0, B, some (chanId ch 0)⟩, hmem _ ?_, ?_, ?_⟩
          · simp [mkPosEntries, hsc, hchs, chanEntries]
          · exact s.uid ++ "_" ++ chanId ch 0
          · simp [String.append_assoc]

/-- Witness for C10 at `cSeqNG`: position `"A"` (index 0, `NoGrid` sub-plan)
gets no layer — allocation emits only `"B_U"` — yet the resolver sends the
`"A"` event to `"A_U"`, which is not among the allocated ids. -/
theorem c10_witness :
    cSeqNG.meta = some cMeta ∧
    (cSeqNG.stage_positions.getD 0 defPos).sequence = some cSubNG ∧
    cSubNG.gridNoGrid = true ∧
    determine_sequence_layers cSeqNG =
      .ok (["g", "y", "x"], [⟨"B_U", [1], none⟩], cSeqNG) ∧
    ((∃ sfx, "A_U" = posName (cSeqNG.stage_positions.getD 0 defPos) 0 ++ "_" ++
        ("U" ++ sfx)) ∧
      "A_U" ∉ ([⟨"B_U", [1], none⟩] : List LayerSpec).map LayerSpec.id) ∧
    (∃ e ∈ ([⟨"B_U", [1], none⟩] : List LayerSpec), ∃ rest,
      e.id = posName (cSeqNG.stage_positions.getD 1 defPos) 1 ++ "_" ++ rest) := by
  have husf : ∀ j, j < cSeqNG.stage_positions.length →
      usFree (posName (cSeqNG.stage_positions.getD j defPos) j) := by
    intro j hj
    have hj2 : j < 2 := hj
    interval_cases j <;> (unfold usFree; decide)
  have hdist : ∀ j, j < cSeqNG.stage_positions.length → j ≠ 0 →
      posName (cSeqNG.stage_positions.getD j defPos) j ≠
        posName (cSeqNG.stage_positions.getD 0 defPos) 0 := by
    intro j hj hne
    have hj2 : j < 2 := hj
    interval_cases j
    · exact absurd rfl hne
    · decide
  have H := c10_nogrid_skipped cSeqNG cMeta 0 cSubNG ["g", "y", "x"]
    [⟨"B_U", [1], none⟩] cSeqNG rfl (by decide) rfl rfl (by rfl) husf hdist
  exact ⟨rfl, rfl, rfl, by rfl,
    H.1 cEvNG "A_U" [0] "Exp_A_U" rfl rfl rfl (by rfl),
    H.2 1 (by decide) rfl (Or.inl rfl)⟩

/-- C1 fails as stated: for the plan `cSeqNG`, allocation completes
(producing only the id `"B_U"`), the event for the `NoGrid`-sub-plan
position `"A"` is a legitimate plan event (its indices respect every
effective axis size), yet the Index Resolver returns the id `"A_U"`, which
is not among the ids produced by `_determine_sequence_layers`. -/
theorem c1_counterexample :
    determine_sequence_layers cSeqNG =
      .ok (["g", "y", "x"], [⟨"B_U", [1], none⟩], cSeqNG) ∧
    (id_idx_layer cEvNG).toOption.map (fun q => q.1) = some "A_U" ∧
    "A_U" ∉ ([⟨"B_U", [1], none⟩] : List LayerSpec).map LayerSpec.id ∧
    cEvNG.sequence = cSeqNG ∧
    List.lookup "p" cEvNG.index = some 0 ∧
    (∀ k ∈ (get_axis_labels cSeqNG).1,
      (List.lookup k cEvNG.index).getD 0 <
        effSize cSeqNG (evPos cSeqNG (get_axis_labels cSeqNG).2 0) k) :=
  ⟨by rfl, by rfl, by decide, rfl, by rfl, by decide⟩

/-- C1 (amended): provided no stage position carries a `NoGrid` sub-plan
(such positions are skipped by allocation while their events still resolve),
every event consistent with the plan — correct position name/index, a
configured channel when splitting, per-axis coordinates within the effective
(per-position grid-overridden) sizes, duplicate-free axis labels — resolves
to the id of one of the allocated groups, with a coordinate vector of length
equal to that group's allocated rank minus the two `y,x` dims and with every
component strictly below the corresponding allocated size. -/
theorem c1_amended (s : MDASequence) (m : SeqMeta) (labels : List String)
    (es : List LayerSpec) (t : MDASequence) (ev : MDAEvent) (pi : Nat)
    (hm : s.meta = some m)
    (hdet : determine_sequence_layers s = .ok (labels, es, t))
    (hseq : ev.sequence = t)
    (hng : ∀ p ∈ s.stage_positions, ∀ sub, p.sequence = some sub →
      sub.gridNoGrid = false)
    (hnd : (get_axis_labels s).1.Nodup)
    (hpos : (get_axis_labels s).2 = true →
      List.lookup "p" ev.index = some pi ∧ pi < s.stage_positions.length ∧
      ev.pos_name = (s.stage_positions.getD pi defPos).name)
    (hch : m.split_channels = true →
      ∃ ci, List.lookup "c" ev.index = some ci ∧ ci < s.channels.length ∧
        ev.channel = some (s.channels.getD ci ⟨""⟩))
    (hbound : ∀ k ∈ (get_axis_labels s).1,
      (List.lookup k ev.index).getD 0 <
        effSize s (evPos s (get_axis_labels s).2 pi) k) :
    ∃ e ∈ es, ∃ idx ln, id_idx_layer ev = .ok (e.id, idx, ln) ∧
      idx.length = e.shape.length ∧
      ∀ i, i < idx.length → idx.getD i 0 < e.shape.getD i 0 := by
  have ht := determine_mut hm hdet
  have hmeta : ev.sequence.meta = some m := by rw [hseq, ht]; exact hm
  have huid : ev.sequence.uid = s.uid := by rw [hseq, ht]; rfl
  rcases hgal : get_axis_labels s with ⟨L0, pf⟩
  have hgat : get_axis_labels ev.sequence = (L0, pf) := by
    rw [hseq, ht, get_axis_labels_allocMutate, hgal]
  rw [hgal] at hnd hpos hbound
  dsimp only at hnd hpos hbound
  cases pf with
  | false =>
    have hbound' : ∀ k ∈ L0, (List.lookup k ev.index).getD 0 < sizeOr1 s.sizes k := by
      intro k hk
      have := hbound k hk
      rwa [show effSize s (evPos s false pi) = sizeOr1 s.sizes from effSize_none rfl]
        at this
    cases hsc : m.split_channels with
    | false =>
      rw [determine_noPos_noSplit hm hsc (by rw [hgal])] at hdet
      have hes : es = [⟨s.uid, L0.map (sizeOr1 s.sizes), none⟩] :=
        (congrArg (fun q => q.2.1) (Except.ok.inj hdet)).symm
      have hid := id_idx_layer_spec hmeta hgat (chanSuffix_noSplit hsc)
        posPrefixId_false
      dsimp only at hid
      rw [String.append_empty, huid] at hid
      obtain ⟨hlen, hlt⟩ := bounds_map L0
        (fun k => (List.lookup k ev.index).getD 0) (sizeOr1 s.sizes) hbound'
      exact ⟨⟨s.uid, L0.map (sizeOr1 s.sizes), none⟩,
        by rw [hes]; exact List.mem_singleton_self _,
        _, _, hid, hlen, hlt⟩
    | true =>
      obtain ⟨ci, hcl, hcilen, hchv⟩ := hch hsc
      cases hci0 : List.findIdx? (fun a => a == "c") L0 with
      | none =>
        rw [determine_sequence_layers] at hdet
        rw [hm] at hdet
        simp [hgal, hsc, hci0] at hdet
      | some cIdx =>
        rw [determine_noPos_split hm hsc (by rw [hgal]) hci0] at hdet
        have hes : es = chanEntries s.uid
            ((L0.map (sizeOr1 s.sizes)).eraseIdx cIdx) 0 s.channels :=
          (congrArg (fun q => q.2.1) (Except.ok.inj hdet)).symm
        have hcs := chanSuffix_split hsc hchv hcl (mem_of_findIdx?_beq hci0)
        have hid := id_idx_layer_spec hmeta hgat hcs
          posPrefixId_false
        dsimp only at hid
        rw [huid] at hid
        have herase : L0.erase "c" = L0.eraseIdx cIdx := by
          have := erase_eq_eraseIdx "c" L0 0 cIdx hci0
          simpa using this
        rw [herase] at hid
        have hideq : s.uid ++ ("_" ++ (s.channels.getD ci ⟨""⟩).config ++ "_" ++
            fmt003 ci) = s.uid ++ "_" ++ chanId (s.channels.getD ci ⟨""⟩) ci := by
          simp [chanId, String.append_assoc]
        rw [hideq] at hid
        have hmem := chanEntries_getD_mem s.uid
          ((L0.map (sizeOr1 s.sizes)).eraseIdx cIdx) s.channels hcilen
        have hshape : (L0.map (sizeOr1 s.sizes)).eraseIdx cIdx =
            (L0.eraseIdx cIdx).map (sizeOr1 s.sizes) := eraseIdx_map _ L0 cIdx
        have hboundE : ∀ k ∈ L0.eraseIdx cIdx,
            (List.lookup k ev.index).getD 0 < sizeOr1 s.sizes k := fun k hk =>
          hbound' k ((List.eraseIdx_sublist L0 cIdx).mem hk)
        obtain ⟨hlen, hlt⟩ := bounds_map (L0.eraseIdx cIdx)
          (fun k => (List.lookup k ev.index).getD 0) (sizeOr1 s.sizes) hboundE
        refine ⟨⟨s.uid ++ "_" ++ chanId (s.channels.getD ci ⟨""⟩) ci,
            (L0.map (sizeOr1 s.sizes)).eraseIdx cIdx,
            some (chanId (s.channels.getD ci ⟨""⟩) ci)⟩,
          by rw [hes]; exact hmem, _, _, hid, ?_, ?_⟩
        · dsimp only
          rw [hshape]
          exact hlen
        · intro i hi
          dsimp only
          rw [hshape]
          exact hlt i hi
  | true =>
    obtain ⟨hpi, hpilen, hpname⟩ := hpos rfl
    have hPmem : s.stage_positions.getD pi defPos ∈ s.stage_positions := by
      rw [List.getD_eq_getElem _ _ hpilen]
      exact List.getElem_mem hpilen
    have hboundP : ∀ k ∈ L0, (List.lookup k ev.index).getD 0 <
        effSize s (s.stage_positions.getD pi defPos) k := hbound
    cases hsc : m.split_channels with
    | false =>
      rw [determine_pos_noSplit hm hsc (by rw [hgal])] at hdet
      obtain ⟨r, hrec, hf⟩ := exceptMap_ok hdet
      obtain ⟨res, rqs⟩ := r
      have hes : res = es := congrArg (fun q => q.2.1) hf
      rw [hes] at hrec
      have hid := id_idx_layer_spec hmeta hgat (chanSuffix_noSplit hsc)
        (posPrefixId_true (p := s.stage_positions.getD pi defPos) (i := pi)
          hpname hpi)
      dsimp only at hid
      rw [String.append_empty, huid] at hid
      have hent := posLoop_entry m s L0 (L0.map (sizeOr1 s.sizes)) 0
        s.stage_positions es rqs hrec pi hpilen
      rw [Nat.zero_add] at hent
      cases hsubP : (s.stage_positions.getD pi defPos).sequence with
      | none =>
        have hmm : (⟨posName (s.stage_positions.getD pi defPos) pi ++ "_" ++ s.uid,
            L0.map (sizeOr1 s.sizes), none⟩ : LayerSpec) ∈
            mkPosEntries m s (s.stage_positions.getD pi defPos) pi
              (L0.map (sizeOr1 s.sizes)) := by
          simp [mkPosEntries, hsc]
        have hmem := hent.1 hsubP _ hmm
        have hshape : L0.map (sizeOr1 s.sizes) =
            L0.map (effSize s (s.stage_positions.getD pi defPos)) := by
          rw [effSize_none hsubP]
        obtain ⟨hlen, hlt⟩ := bounds_map L0
          (fun k => (List.lookup k ev.index).getD 0)
          (effSize s (s.stage_positions.getD pi defPos)) hboundP
        refine ⟨_, hmem, _, _, hid, ?_, ?_⟩
        · dsimp only
          rw [hshape]
          exact hlen
        · intro i hi
          dsimp only
          rw [hshape]
          exact hlt i hi
      | some sub =>
        have hngP : sub.gridNoGrid = false :=
          hng _ hPmem sub hsubP
        obtain ⟨gi, hgi, hmemf⟩ := hent.2 sub hsubP hngP
        have hshape : (L0.map (sizeOr1 s.sizes)).set gi
            ((List.lookup "g" sub.sizes).getD 0) =
            L0.map (effSize s (s.stage_positions.getD pi defPos)) :=
          posShape_eq s L0 hnd hsubP hgi
        have hmm : (⟨posName (s.stage_positions.getD pi defPos) pi ++ "_" ++ s.uid,
            (L0.map (sizeOr1 s.sizes)).set gi ((List.lookup "g" sub.sizes).getD 0),
            none⟩ : LayerSpec) ∈
            mkPosEntries m s (s.stage_positions.getD pi defPos) pi
              ((L0.map (sizeOr1 s.sizes)).set gi
                ((List.lookup "g" sub.sizes).getD 0)) := by
          simp [mkPosEntries, hsc]
        have hmem := hmemf _ hmm
        obtain ⟨hlen, hlt⟩ := bounds_map L0
          (fun k => (List.lookup k ev.index).getD 0)
          (effSize s (s.stage_positions.getD pi defPos)) hboundP
        refine ⟨_, hmem, _, _, hid, ?_, ?_⟩
        · dsimp only
          rw [hshape]
          exact hlen
        · intro i hi
          dsimp only
          rw [hshape]
          exact hlt i hi
    | true =>
      obtain ⟨ci, hcl, hcilen, hchv⟩ := hch hsc
      cases hci0 : List.findIdx? (fun a => a == "c") L0 with
      | none =>
        rw [determine_sequence_layers] at hdet
        rw [hm] at hdet
        simp [hgal, hsc, hci0] at hdet
      | some cIdx =>
        rw [determine_pos_split hm hsc (by rw [hgal]) hci0] at hdet
        obtain ⟨r, hrec, hf⟩ := exceptMap_ok hdet
        obtain ⟨res, rqs⟩ := r
        have hes : res = es := congrArg (fun q => q.2.1) hf
        rw [hes] at hrec
        have hcs := chanSuffix_split hsc hchv hcl (mem_of_findIdx?_beq hci0)
        have hid := id_idx_layer_spec hmeta hgat hcs
          (posPrefixId_true (p := s.stage_positions.getD pi defPos) (i := pi)
            hpname hpi)
        dsimp only at hid
        rw [huid] at hid
        have herase : L0.erase "c" = L0.eraseIdx cIdx := by
          have := erase_eq_eraseIdx "c" L0 0 cIdx hci0
          simpa using this
        rw [herase] at hid
        have hideq : posName (s.stage_positions.getD pi defPos) pi ++ "_" ++ s.uid
            ++ ("_" ++ (s.channels.getD ci ⟨""⟩).config ++ "_" ++ fmt003 ci) =
            (posName (s.stage_positions.getD pi defPos) pi ++ "_" ++ s.uid) ++ "_"
              ++ chanId (s.channels.getD ci ⟨""⟩) ci := by
          simp [chanId, String.append_assoc]
        rw [hideq] at hid
        have hent := posLoop_entry m s (L0.eraseIdx cIdx)
          ((L0.map (sizeOr1 s.sizes)).eraseIdx cIdx) 0
          s.stage_positions es rqs hrec pi hpilen
        rw [Nat.zero_add] at hent
        have hnd1 : (L0.eraseIdx cIdx).Nodup := hnd.eraseIdx cIdx
        have hshape0 : (L0.map (sizeOr1 s.sizes)).eraseIdx cIdx =
            (L0.eraseIdx cIdx).map (sizeOr1 s.sizes) := eraseIdx_map _ L0 cIdx
        have hboundE : ∀ k ∈ L0.eraseIdx cIdx, (List.lookup k ev.index).getD 0 <
            effSize s (s.stage_positions.getD pi defPos) k := fun k hk =>
          hboundP k ((List.eraseIdx_sublist L0 cIdx).mem hk)
        obtain ⟨hlen, hlt⟩ := bounds_map (L0.eraseIdx cIdx)
          (fun k => (List.lookup k ev.index).getD 0)
          (effSize s (s.stage_positions.getD pi defPos)) hboundE
        cases hsubP : (s.stage_positions.getD pi defPos).sequence with
        | none =>
          have hmm : (⟨(posName (s.stage_positions.getD pi defPos) pi ++ "_" ++
              s.uid) ++ "_" ++ chanId (s.channels.getD ci ⟨""⟩) ci,
              (L0.map (sizeOr1 s.sizes)).eraseIdx cIdx,
              some (chanId (s.channels.getD ci ⟨""⟩) ci)⟩ : LayerSpec) ∈
              mkPosEntries m s (s.stage_positions.getD pi defPos) pi
                ((L0.map (sizeOr1 s.sizes)).eraseIdx cIdx) := by
            have := chanEntries_getD_mem
              (posName (s.stage_positions.getD pi defPos) pi ++ "_" ++ s.uid)
              ((L0.map (sizeOr1 s.sizes)).eraseIdx cIdx) s.channels hcilen
            simpa [mkPosEntries, hsc] using this
          have hmem := hent.1 hsubP _ hmm
          have hshape : (L0.map (sizeOr1 s.sizes)).eraseIdx cIdx =
              (L0.eraseIdx cIdx).map
                (effSize s (s.stage_positions.getD pi defPos)) := by
            rw [hshape0, effSize_none hsubP]
          refine ⟨_, hmem, _, _, hid, ?_, ?_⟩
          · dsimp only
            rw [hshape]
            exact hlen
          · intro i hi
            dsimp only
            rw [hshape]
            exact hlt i hi
        | some sub =>
          have hngP : sub.gridNoGrid = false := hng _ hPmem sub hsubP
          obtain ⟨gi, hgi, hmemf⟩ := hent.2 sub hsubP hngP
          have hshape : ((L0.map (sizeOr1 s.sizes)).eraseIdx cIdx).set gi
              ((List.lookup "g" sub.sizes).getD 0) =
              (L0.eraseIdx cIdx).map
                (effSize s (s.stage_positions.getD pi defPos)) := by
            rw [hshape0]
            exact posShape_eq s (L0.eraseIdx cIdx) hnd1 hsubP hgi
          have hmm : (⟨(posName (s.stage_positions.getD pi defPos) pi ++ "_" ++
              s.uid) ++ "_" ++ chanId (s.channels.getD ci ⟨""⟩) ci,
              ((L0.map (sizeOr1 s.sizes)).eraseIdx cIdx).set gi
                ((List.lookup "g" sub.sizes).getD 0),
              some (chanId (s.channels.getD ci ⟨""⟩) ci)⟩ : LayerSpec) ∈
              mkPosEntries m s (s.stage_positions.getD pi defPos) pi
                (((L0.map (sizeOr1 s.sizes)).eraseIdx cIdx).set gi
                  ((List.lookup "g" sub.sizes).getD 0)) := by
            have := chanEntries_getD_mem
              (posName (s.stage_positions.getD pi defPos) pi ++ "_" ++ s.uid)
              (((L0.map (sizeOr1 s.sizes)).eraseIdx cIdx).set gi
                ((List.lookup "g" sub.sizes).getD 0)) s.channels hcilen
            simpa [mkPosEntries, hsc] using this
          have hmem := hmemf _ hmm
          refine ⟨_, hmem, _, _, hid, ?_, ?_⟩
          · dsimp only
            rw [hshape]
            exact hlen
          · intro i hi
            dsimp only
            rw [hshape]
            exact hlt i hi

/-- Witness for C1 (amended) at `cSeqW1`: the `(p=1, t=1, c=1, g=2)` FITC
event resolves to `B_U_FITC_001`, one of the four allocated groups, with
coordinate `[1, 2]` inside its `[2, 3]` allocation. -/
theorem c1_amended_witness :
    cSeqW1.meta = some cMetaS ∧
    determine_sequence_layers cSeqW1 =
      .ok (cLW1, cEW1, allocMutate cMetaS cSeqW1) ∧
    cEvW1.sequence = allocMutate cMetaS cSeqW1 ∧
    (∀ p ∈ cSeqW1.stage_positions, ∀ sub, p.sequence = some sub →
      sub.gridNoGrid = false) ∧
    (get_axis_labels cSeqW1).1.Nodup ∧
    (∀ k ∈ (get_axis_labels cSeqW1).1,
      (List.lookup k cEvW1.index).getD 0 <
        effSize cSeqW1 (evPos cSeqW1 (get_axis_labels cSeqW1).2 1) k) ∧
    (∃ e ∈ cEW1, ∃ idx ln, id_idx_layer cEvW1 = .ok (e.id, idx, ln) ∧
      idx.length = e.shape.length ∧
      ∀ i, i < idx.length → idx.getD i 0 < e.shape.getD i 0) :=
  ⟨rfl, by rfl, rfl, by decide, by decide, by decide,
    c1_amended cSeqW1 cMetaS cLW1 cEW1 (allocMutate cMetaS cSeqW1) cEvW1 1
      rfl (by rfl) rfl (by decide) (by decide)
      (fun _ => ⟨by rfl, by decide, by rfl⟩)
      (fun _ => ⟨1, by rfl, by decide, by rfl⟩)
      (by decide)⟩

end NapariMM
